import Mathlib

/-!
Shallow embedding of the Gemini Poker engine (a no-limit Texas Holdem
hand-to-hand game): the card model and hand evaluator from
`src/utils/pokerLogic.ts` and the betting state machine from `src/App.tsx`.
TypeScript numbers holding chip counts are modelled as `Int` (all arithmetic
performed on them is integer-valued); card ranks and hand scores are `Nat`.
The stable JavaScript `Array.prototype.sort` is modelled with
`List.insertionSort`, which is stable.
-/

namespace GPoker

/-- The four suits (enum `Suit` in `types.ts`). -/
inductive Suit
  | HEARTS
  | DIAMONDS
  | CLUBS
  | SPADES
deriving DecidableEq, Repr

/-- A playing card: suit, rank 2..14 (11=J, 12=Q, 13=K, 14=A) and display label. -/
structure Card where
  suit : Suit
  rank : Nat
  display : String
deriving DecidableEq, Repr

/-- A hand evaluation result (`HandRank` in `types.ts`). -/
structure HandRank where
  score : Nat
  name : String
  cards : List Card
deriving DecidableEq, Repr

/-- The display label used by `createDeck` for a rank. -/
def displayFor (r : Nat) : String :=
  if r = 11 then "J"
  else if r = 12 then "Q"
  else if r = 13 then "K"
  else if r = 14 then "A"
  else toString r

/-- Card constructor matching how `createDeck` builds cards. -/
def mkCard (s : Suit) (r : Nat) : Card := ⟨s, r, displayFor r⟩

/-- `createDeck` from `pokerLogic.ts`: all 52 (suit, rank) combinations, suits
in the order hearts, diamonds, clubs, spades, ranks ascending 2..14. -/
def createDeck : List Card :=
  ([Suit.HEARTS, Suit.DIAMONDS, Suit.CLUBS, Suit.SPADES].map
    (fun s => ((List.range 13).map (fun i => mkCard s (i + 2))))).flatten

/-- Deduplication keeping first occurrences, as the JavaScript
`Array.from(new Set(xs))` construct and object-key insertion order do. -/
def firstDedupAux [DecidableEq α] (seen : List α) : List α → List α
  | [] => []
  | a :: t => if a ∈ seen then firstDedupAux seen t else a :: firstDedupAux (a :: seen) t

/-- Deduplication keeping first occurrences. -/
def firstDedup [DecidableEq α] (l : List α) : List α := firstDedupAux [] l

/-- Number of cards of rank `r` (the rank-count record of `getCounts`). -/
def countRank (cs : List Card) (r : Nat) : Nat :=
  (cs.filter (fun c => decide (c.rank = r))).length

/-- Number of cards of suit `s` (the suit-count record of `getSuits`). -/
def countSuit (cs : List Card) (s : Suit) : Nat :=
  (cs.filter (fun c => decide (c.suit = s))).length

/-- Stable descending sort of cards by rank, modelling
`cards.sort((a, b) => b.rank - a.rank)`. -/
def sortCardsDesc (cs : List Card) : List Card :=
  cs.insertionSort (fun a b => b.rank ≤ a.rank)

/-- Descending numeric sort, modelling `.sort((a, b) => b - a)`. -/
def sortDescNat (l : List Nat) : List Nat := l.insertionSort (fun a b => b ≤ a)

/-- Ascending numeric sort (JavaScript object iteration visits integer-like
keys in ascending order). -/
def sortAscNat (l : List Nat) : List Nat := l.insertionSort (fun a b => a ≤ b)

/-- The scan loop of `getStraightHighRank`: walk the descending unique ranks
and return the first `unique[i]` with `unique[i] - unique[i+4] === 4`. -/
def scanStraightRuns : List Nat → Option Nat
  | [] => none
  | a :: t =>
    match t.get? 3 with
    | some b => if a = b + 4 then some a else scanStraightRuns t
    | none => none

/-- `getStraightHighRank` from `pokerLogic.ts`: the high rank of a straight
within `ranks` (wheel A-2-3-4-5 scored as 5), or 0 if none. -/
def getStraightHighRank (ranks : List Nat) : Nat :=
  let unique := sortDescNat (firstDedup ranks)
  if unique.length < 5 then 0
  else
    match scanStraightRuns unique with
    | some h => h
    | none =>
      if 14 ∈ unique ∧ 2 ∈ unique ∧ 3 ∈ unique ∧ 4 ∈ unique ∧ 5 ∈ unique then 5 else 0

/-- `getStraightCards` from `pokerLogic.ts`: pick one card for each rank of the
straight (wheel ordered 5-4-3-2-A), skipping ranks with no card. -/
def getStraightCards (cs : List Card) (highRank : Nat) : List Card :=
  if highRank = 5 then
    ([5, 4, 3, 2, 14] : List Nat).filterMap (fun r => cs.find? (fun c => decide (c.rank = r)))
  else
    (List.range 5).filterMap (fun i => cs.find? (fun c => decide (c.rank = highRank - i)))

/-- `evaluateHand` from `pokerLogic.ts`: best 5-card ranking of the hole cards
plus community cards, with score bands 800 (straight flush), 700 (quads),
600 (full house), 500 (flush), 400 (straight), 300 (trips), 200 (two pair),
100 (pair) and the bare high-card rank. -/
def evaluateHand (holeCards communityCards : List Card) : HandRank :=
  let allCards := sortCardsDesc (holeCards ++ communityCards)
  let ranks := allCards.map (·.rank)
  let uniqueRanks := firstDedup ranks
  let suitsOrder := firstDedup (allCards.map (·.suit))
  let getByRank := fun (r : Nat) => allCards.filter (fun c => decide (c.rank = r))
  let getExcluding := fun (rs : List Nat) => allCards.filter (fun c => decide (c.rank ∉ rs))
  let flushSuit := (suitsOrder.filter (fun s => decide (countSuit allCards s ≥ 5))).getLast?
  let flushCards :=
    match flushSuit with
    | some s => allCards.filter (fun c => decide (c.suit = s))
    | none => []
  let sfHigh :=
    match flushSuit with
    | some _ => getStraightHighRank (flushCards.map (·.rank))
    | none => 0
  if sfHigh ≠ 0 then
    ⟨800 + sfHigh, "Straight Flush", getStraightCards flushCards sfHigh⟩
  else
    match (sortAscNat uniqueRanks).find? (fun r => decide (countRank allCards r = 4)) with
    | some quadRank =>
      ⟨700 + quadRank, "Four of a Kind (" ++ toString quadRank ++ "\x27s)",
        getByRank quadRank ++ (getExcluding [quadRank]).take 1⟩
    | none =>
      let trips := (sortDescNat uniqueRanks).filter (fun r => decide (countRank allCards r = 3))
      let pairs := (sortDescNat uniqueRanks).filter (fun r => decide (countRank allCards r = 2))
      let fullHouse? : Option (Nat × Nat) :=
        match trips with
        | [] => none
        | highTrip :: _ =>
          match sortDescNat ((trips.filter (fun t => decide (t ≠ highTrip))) ++ pairs) with
          | [] => none
          | highPair :: _ => some (highTrip, highPair)
      match fullHouse? with
      | some (ht, hp) =>
        ⟨600 + ht, "Full House (" ++ toString ht ++ "\x27s over " ++ toString hp ++ "\x27s)",
          getByRank ht ++ (getByRank hp).take 2⟩
      | none =>
        match flushSuit with
        | some _ =>
          ⟨500 + (match flushCards with | c :: _ => c.rank | [] => 0), "Flush", flushCards.take 5⟩
        | none =>
          let straightHigh := getStraightHighRank ranks
          if straightHigh ≠ 0 then
            ⟨400 + straightHigh, "Straight", getStraightCards allCards straightHigh⟩
          else
            match trips with
            | tripRank :: _ =>
              ⟨300 + tripRank, "Three of a Kind (" ++ toString tripRank ++ "\x27s)",
                getByRank tripRank ++ (getExcluding [tripRank]).take 2⟩
            | [] =>
              match pairs with
              | p1 :: p2 :: _ =>
                ⟨200 + p1, "Two Pair (" ++ toString p1 ++ "\x27s and " ++ toString p2 ++ "\x27s)",
                  getByRank p1 ++ getByRank p2 ++ (getExcluding [p1, p2]).take 1⟩
              | [p1] =>
                ⟨100 + p1, "Pair of " ++ toString p1 ++ "\x27s",
                  getByRank p1 ++ (getExcluding [p1]).take 3⟩
              | [] =>
                ⟨(match ranks with | r :: _ => r | [] => 0),
                  "High Card (" ++ toString (match ranks with | r :: _ => r | [] => 0) ++ ")",
                  allCards.take 5⟩

/-- The classification band of `evaluateHand`: which branch of the category
cascade fires for the given cards (8 = straight flush, 7 = quads, 6 = full
house, 5 = flush, 4 = straight, 3 = trips, 2 = two pair, 1 = pair,
0 = high card), mirroring the branch conditions of the source evaluator. -/
def handCategory (holeCards communityCards : List Card) : Nat :=
  let allCards := sortCardsDesc (holeCards ++ communityCards)
  let ranks := allCards.map (·.rank)
  let uniqueRanks := firstDedup ranks
  let suitsOrder := firstDedup (allCards.map (·.suit))
  let flushSuit := (suitsOrder.filter (fun s => decide (countSuit allCards s ≥ 5))).getLast?
  let flushCards : List Card :=
    match flushSuit with
    | some s => allCards.filter (fun c => decide (c.suit = s))
    | none => []
  let sfHigh : Nat :=
    match flushSuit with
    | some _ => getStraightHighRank (flushCards.map (·.rank))
    | none => 0
  if sfHigh ≠ 0 then 8
  else
    match (sortAscNat uniqueRanks).find? (fun r => decide (countRank allCards r = 4)) with
    | some _ => 7
    | none =>
      let trips := (sortDescNat uniqueRanks).filter (fun r => decide (countRank allCards r = 3))
      let pairs := (sortDescNat uniqueRanks).filter (fun r => decide (countRank allCards r = 2))
      let fullHouse? : Option (Nat × Nat) :=
        match trips with
        | [] => none
        | highTrip :: _ =>
          match sortDescNat ((trips.filter (fun t => decide (t ≠ highTrip))) ++ pairs) with
          | [] => none
          | highPair :: _ => some (highTrip, highPair)
      match fullHouse? with
      | some (_, _) => 6
      | none =>
        match flushSuit with
        | some _ => 5
        | none =>
          let straightHigh := getStraightHighRank ranks
          if straightHigh ≠ 0 then 4
          else
            match trips with
            | _ :: _ => 3
            | [] =>
              match pairs with
              | _ :: _ :: _ => 2
              | [_] => 1
              | [] => 0

/-! ### Game state model (`types.ts` and `App.tsx`) -/

/-- `PlayerRole` from `types.ts`. -/
inductive PlayerRole
  | USER
  | BOT
deriving DecidableEq, Repr

/-- `PlayerStatus` from `types.ts`. -/
inductive PlayerStatus
  | ACTIVE
  | FOLDED
  | ALL_IN
  | BUSTED
deriving DecidableEq, Repr

/-- `Player` from `types.ts`. Chip counts and bets are `Int`. -/
structure Player where
  id : Nat
  name : String
  role : PlayerRole
  chips : Int
  hand : List Card
  status : PlayerStatus
  currentBet : Int
  totalHandBet : Int
  lastAction : Option String := none
deriving DecidableEq, Repr

/-- `GamePhase` from `types.ts`. -/
inductive GamePhase
  | PRE_FLOP
  | FLOP
  | TURN
  | RIVER
  | SHOWDOWN
  | GAME_OVER
deriving DecidableEq, Repr

/-- The display string of a phase (the enum values in `types.ts`). -/
def GamePhase.label : GamePhase → String
  | .PRE_FLOP => "Pre-Flop"
  | .FLOP => "Flop"
  | .TURN => "Turn"
  | .RIVER => "River"
  | .SHOWDOWN => "Showdown"
  | .GAME_OVER => "Game Over"

/-- `ShowdownResult` from `types.ts`. -/
structure ShowdownResult where
  playerId : Nat
  name : String
  role : PlayerRole
  handDescription : String
  holeCards : List Card
  winningCards : List Card
  amount : Int
  isWinner : Bool
  score : Nat
deriving DecidableEq, Repr

/-- `GameState` from `types.ts`. `activePlayerIndex` is an `Int` because the
code stores `-1` when no one is to act. -/
structure GameState where
  players : List Player
  pot : Int
  deck : List Card
  communityCards : List Card
  dealerIndex : Nat
  activePlayerIndex : Int
  currentHighBet : Int
  phase : GamePhase
  isGameRunning : Bool
  minBet : Int
  smallBlindIndex : Nat
  bigBlindIndex : Nat
  showdownResults : List ShowdownResult
  message : String
deriving DecidableEq, Repr

/-- The action strings accepted by `executePlayerAction`. -/
inductive Action
  | FOLD
  | CHECK
  | CALL
  | BET
  | RAISE
  | ALL_IN
deriving DecidableEq, Repr

/-- `TOTAL_PLAYERS` in `App.tsx`. -/
def TOTAL_PLAYERS : Nat := 9

/-- `INITIAL_BIG_BLIND` in `App.tsx`. -/
def INITIAL_BIG_BLIND : Int := 20

/-- `INITIAL_SMALL_BLIND` in `App.tsx`. -/
def INITIAL_SMALL_BLIND : Int := 10

/-! ### Per-hand setup (`startNewHand` in `App.tsx`) -/

/-- The per-hand reset at the top of `startNewHand`: every player with
positive chips becomes ACTIVE, others BUSTED; hands, bets and last actions
are cleared. -/
def resetPlayers (ps : List Player) : List Player :=
  ps.map (fun p =>
    { p with
      status := if 0 < p.chips then PlayerStatus.ACTIVE else PlayerStatus.BUSTED,
      hand := [],
      currentBet := 0,
      lastAction := none,
      totalHandBet := 0 })

/-- The victory/defeat check of `startNewHand`, applied to the reset players:
game over when the user is missing or BUSTED, or no bot is ACTIVE. -/
def setupGameOver (ps : List Player) : Bool :=
  let user := ps.find? (fun p => decide (p.role = PlayerRole.USER))
  let activeBots := ps.filter (fun p => decide (p.role = PlayerRole.BOT ∧ p.status = PlayerStatus.ACTIVE))
  match user with
  | none => true
  | some u => decide (u.status = PlayerStatus.BUSTED) || decide (activeBots.length = 0)

/-- `deck.pop()`: remove and return the last card of the deck. On an empty
deck JavaScript returns `undefined`; that never happens during normal play. -/
def popCard (deck : List Card) : Option Card × List Card :=
  (deck.getLast?, deck.dropLast)

/-- The hole-card dealing loop of `startNewHand`: each ACTIVE player, in seat
order, takes two cards popped from the deck. -/
def dealHoleCards : List Player → List Card → List Player × List Card
  | [], deck => ([], deck)
  | p :: ps, deck =>
    if p.status = PlayerStatus.ACTIVE then
      let r1 := popCard deck
      let r2 := popCard r1.2
      let rest := dealHoleCards ps r2.2
      ({ p with hand := r1.1.toList ++ r2.1.toList } :: rest.1, rest.2)
    else
      let rest := dealHoleCards ps deck
      (p :: rest.1, rest.2)

/-- The `while (players[idx].status === BUSTED) idx = (idx + 1) % 9` loops of
`startNewHand`, with explicit fuel. The real loop terminates within 9 steps
whenever a non-BUSTED player exists, which the game-over check guarantees. -/
def skipBusted (ps : List Player) : Nat → Nat → Nat
  | 0, idx => idx
  | fuel + 1, idx =>
    match ps.get? idx with
    | some p =>
      if p.status = PlayerStatus.BUSTED then skipBusted ps fuel ((idx + 1) % TOTAL_PLAYERS)
      else idx
    | none => idx

/-- The blind amount posted at seat `idx`: `min(blind, chips)`. -/
def blindAmount (ps : List Player) (idx : Nat) (blind : Int) : Int :=
  match ps.get? idx with
  | some p => min blind p.chips
  | none => 0

/-- Blind posting in `startNewHand`: deduct `min(blind, chips)` from the seat,
record it as the round bet and hand total, and mark ALL_IN if it exhausts the
stack. -/
def postBlind (ps : List Player) (idx : Nat) (blind : Int) : List Player :=
  match ps.get? idx with
  | some p =>
    let amt := min blind p.chips
    ps.set idx
      { p with
        chips := p.chips - amt,
        currentBet := amt,
        totalHandBet := amt,
        status := if p.chips - amt = 0 then PlayerStatus.ALL_IN else p.status }
  | none => ps

/-- `startNewHand` from `App.tsx`. The freshly shuffled deck is passed in as
`freshDeck` (the source calls `shuffleDeck(createDeck())`, whose randomness is
the only nondeterminism). `prev` is the previous state spread into the
game-over branch. -/
def startNewHand (prev : GameState) (currentPlayers : List Player) (dealerIdx : Nat)
    (freshDeck : List Card) : GameState :=
  let players := resetPlayers currentPlayers
  if setupGameOver players then
    { prev with
      players := players,
      isGameRunning := false,
      phase := GamePhase.GAME_OVER,
      message :=
        if (players.find? (fun p => decide (p.role = PlayerRole.USER))).all
            (fun u => decide (u.status = PlayerStatus.BUSTED)) then
          "You have been eliminated."
        else "You are the Champion!" }
  else
    let dealtPair := dealHoleCards players freshDeck
    let dealt := dealtPair.1
    let deck := dealtPair.2
    let sbIndex := skipBusted dealt TOTAL_PLAYERS ((dealerIdx + 1) % TOTAL_PLAYERS)
    let bbIndex := skipBusted dealt TOTAL_PLAYERS ((sbIndex + 1) % TOTAL_PLAYERS)
    let sbAmount := blindAmount dealt sbIndex INITIAL_SMALL_BLIND
    let ps2 := postBlind dealt sbIndex INITIAL_SMALL_BLIND
    let bbAmount := blindAmount ps2 bbIndex INITIAL_BIG_BLIND
    let ps3 := postBlind ps2 bbIndex INITIAL_BIG_BLIND
    let firstActionIndex := skipBusted ps3 TOTAL_PLAYERS ((bbIndex + 1) % TOTAL_PLAYERS)
    { players := ps3,
      pot := sbAmount + bbAmount,
      deck := deck,
      communityCards := [],
      dealerIndex := dealerIdx,
      activePlayerIndex := (firstActionIndex : Int),
      currentHighBet := INITIAL_BIG_BLIND,
      phase := GamePhase.PRE_FLOP,
      isGameRunning := true,
      minBet := INITIAL_BIG_BLIND,
      smallBlindIndex := sbIndex,
      bigBlindIndex := bbIndex,
      showdownResults := [],
      message := "New Hand! Pre-Flop." }

/-! ### Player actions (`executePlayerAction` in `App.tsx`) -/

/-- The `RAISE`/`BET` branch of `executePlayerAction`. `amount` is the
requested total for the round (`undefined` or `0` falls back to the minimum
raise, as `amount || minRaiseAbs` does); the result is clamped to the stack
maximum and bumped up to the minimum raise unless that exceeds the maximum. -/
def applyRaise (st : GameState) (playerIndex : Nat) (p : Player) (amount : Option Int)
    (isBet : Bool) : GameState :=
  let minRaiseAbs := if 0 < st.currentHighBet then st.currentHighBet * 2 else st.minBet
  let requested :=
    match amount with
    | none => minRaiseAbs
    | some v => if v = 0 then minRaiseAbs else v
  let maxTotal := p.chips + p.currentBet
  let raiseTo1 := if maxTotal < requested then maxTotal else requested
  let raiseTo := if raiseTo1 < minRaiseAbs ∧ raiseTo1 < maxTotal then minRaiseAbs else raiseTo1
  let addedChips := raiseTo - p.currentBet
  if p.chips < addedChips then
    let actualAdd := p.chips
    let p2 :=
      { p with
        status := PlayerStatus.ALL_IN,
        lastAction := some "All In",
        chips := 0,
        currentBet := p.currentBet + actualAdd,
        totalHandBet := p.totalHandBet + actualAdd }
    { st with
      players := st.players.set playerIndex p2,
      pot := st.pot + actualAdd,
      currentHighBet :=
        if st.currentHighBet < p.currentBet + actualAdd then p.currentBet + actualAdd
        else st.currentHighBet,
      message := p.name ++ " went All In!" }
  else
    let p2 :=
      { p with
        chips := p.chips - addedChips,
        currentBet := raiseTo,
        totalHandBet := p.totalHandBet + addedChips,
        status := if p.chips - addedChips = 0 then PlayerStatus.ALL_IN else p.status,
        lastAction :=
          some (if isBet then "Bet " ++ toString raiseTo else "Raise to " ++ toString raiseTo) }
    { st with
      players := st.players.set playerIndex p2,
      pot := st.pot + addedChips,
      currentHighBet := if st.currentHighBet < raiseTo then raiseTo else st.currentHighBet,
      message :=
        p.name ++ (if isBet then " bet " else " raised to ") ++ toString raiseTo ++ "." }

/-- `executePlayerAction` from `App.tsx` (the state-update part; the source
additionally schedules `advanceTurn` on a timer afterwards). An out-of-range
`playerIndex` would crash the source; here it leaves the state unchanged. -/
def executePlayerAction (st : GameState) (playerIndex : Nat) (action : Action)
    (amount : Option Int := none) : GameState :=
  match st.players.get? playerIndex with
  | none => st
  | some p =>
    match action with
    | .FOLD =>
      { st with
        players := st.players.set playerIndex
          { p with status := PlayerStatus.FOLDED, lastAction := some "Fold" },
        message := p.name ++ " folded." }
    | .CHECK =>
      { st with
        players := st.players.set playerIndex { p with lastAction := some "Check" },
        message := p.name ++ " checked." }
    | .CALL =>
      let callAmt := min p.chips (st.currentHighBet - p.currentBet)
      let p2 :=
        { p with
          chips := p.chips - callAmt,
          currentBet := p.currentBet + callAmt,
          totalHandBet := p.totalHandBet + callAmt,
          status := if p.chips - callAmt = 0 then PlayerStatus.ALL_IN else p.status,
          lastAction := some "Call" }
      { st with
        players := st.players.set playerIndex p2,
        pot := st.pot + callAmt,
        message := p.name ++ " called." }
    | .BET => applyRaise st playerIndex p amount true
    | .RAISE => applyRaise st playerIndex p amount false
    | .ALL_IN =>
      let allInAmt := p.chips
      let totalBet := p.currentBet + allInAmt
      let p2 :=
        { p with
          chips := 0,
          currentBet := totalBet,
          totalHandBet := p.totalHandBet + allInAmt,
          status := PlayerStatus.ALL_IN,
          lastAction := some "All In" }
      { st with
        players := st.players.set playerIndex p2,
        pot := st.pot + allInAmt,
        currentHighBet := if st.currentHighBet < totalBet then totalBet else st.currentHighBet,
        message := p.name ++ " went All In!" }

/-! ### Showdown resolution (`resolveWinner` in `App.tsx`) -/

/-- The players qualifying for a showdown: status neither FOLDED nor BUSTED
(the filter used by `advanceTurn` and `resolveWinner`). -/
def qualifiers (ps : List Player) : List Player :=
  ps.filter (fun p => decide (p.status ≠ PlayerStatus.FOLDED ∧ p.status ≠ PlayerStatus.BUSTED))

/-- Stable descending sort by evaluated score, modelling
`evaluated.sort((a, b) => b.rank.score - a.rank.score)`. -/
def sortByScoreDesc (l : List (Player × HandRank)) : List (Player × HandRank) :=
  l.insertionSort (fun a b => b.2.score ≤ a.2.score)

/-- `resolveWinner` from `App.tsx`. `currentPlayers` is the list passed by the
caller (`advanceTurn` passes the already-filtered survivor list, `nextPhase`
passes the full reset player list); the resulting `players` field is the map
over exactly that list, as in the source. The pot itself is read from the
state and is not reset here. -/
def resolveWinner (st : GameState) (currentPlayers : List Player) : GameState :=
  let activeAndAllIn := qualifiers currentPlayers
  let commCards := st.communityCards
  let results : List ShowdownResult :=
    if activeAndAllIn.length = 1 then
      match activeAndAllIn with
      | w :: _ =>
        [{ playerId := w.id, name := w.name, role := w.role,
           handDescription := "Last Player Standing", holeCards := w.hand,
           winningCards := [], amount := st.pot, isWinner := true, score := 9999 }]
      | [] => []
    else
      let evaluated := activeAndAllIn.map (fun p => (p, evaluateHand p.hand commCards))
      let sorted := sortByScoreDesc evaluated
      let bestScore := match sorted with | e :: _ => e.2.score | [] => 0
      let ties := sorted.filter (fun e => decide (e.2.score = bestScore))
      let splitAmt := Int.fdiv st.pot (ties.length : Int)
      sorted.map (fun e =>
        { playerId := e.1.id, name := e.1.name, role := e.1.role,
          handDescription := e.2.name, holeCards := e.1.hand,
          winningCards := e.2.cards,
          amount := if e.2.score = bestScore then splitAmt else 0,
          isWinner := decide (e.2.score = bestScore),
          score := e.2.score })
  let nextPlayers := currentPlayers.map (fun p =>
    match results.find? (fun r => decide (r.playerId = p.id)) with
    | some res =>
      if res.isWinner then
        { p with
          chips := p.chips + res.amount,
          status :=
            if 0 < p.chips + res.amount then PlayerStatus.ACTIVE else PlayerStatus.BUSTED }
      else p
    | none => p)
  let actualWinners := results.filter (fun r => r.isWinner)
  let winMsg :=
    if 1 < actualWinners.length then "Split Pot!"
    else match actualWinners with | w :: _ => w.name ++ " Wins!" | [] => ""
  { st with
    players := nextPlayers,
    phase := GamePhase.SHOWDOWN,
    activePlayerIndex := -1,
    showdownResults := results,
    message := winMsg }

/-! ### Phase advance (`nextPhase` in `App.tsx`) -/

/-- The community-card dealing of `nextPhase`: the next phase together with the
new community cards and remaining deck (flop 3 cards, turn 1, river 1; any
other phase keeps the initial `PRE_FLOP` value and deals nothing, as in the
if-chain of the source). -/
def dealPhase (phase : GamePhase) (comm deck : List Card) :
    GamePhase × List Card × List Card :=
  match phase with
  | .PRE_FLOP =>
    let (c1, d1) := popCard deck
    let (c2, d2) := popCard d1
    let (c3, d3) := popCard d2
    (.FLOP, comm ++ c1.toList ++ c2.toList ++ c3.toList, d3)
  | .FLOP =>
    let (c1, d1) := popCard deck
    (.TURN, comm ++ c1.toList, d1)
  | .TURN =>
    let (c1, d1) := popCard deck
    (.RIVER, comm ++ c1.toList, d1)
  | _ => (.PRE_FLOP, comm, deck)

/-- The first `while` loop of `nextPhase`: advance from the seat left of the
dealer to the first ACTIVE or ALL_IN seat, with the emergency break of the source
when no non-BUSTED player remains. Fuel replaces the unbounded loop; 9 steps
suffice whenever an ACTIVE or ALL_IN player exists. -/
def skipToLive (ps : List Player) : Nat → Nat → Nat
  | 0, idx => idx
  | fuel + 1, idx =>
    match ps.get? idx with
    | some p =>
      if p.status = PlayerStatus.ACTIVE ∨ p.status = PlayerStatus.ALL_IN then idx
      else
        let idx2 := (idx + 1) % TOTAL_PLAYERS
        if (ps.filter (fun q => decide (q.status ≠ PlayerStatus.BUSTED))).length = 0 then idx2
        else skipToLive ps fuel idx2
    | none => idx

/-- The inner `for` loop of `nextPhase` (and the seat search of `advanceTurn`):
scan at most `fuel` seats starting at `idx` for an ACTIVE player. -/
def findActiveNat (ps : List Player) : Nat → Nat → Option Nat
  | 0, _ => none
  | fuel + 1, idx =>
    match ps.get? idx with
    | some p =>
      if p.status = PlayerStatus.ACTIVE then some idx
      else findActiveNat ps fuel ((idx + 1) % TOTAL_PLAYERS)
    | none => findActiveNat ps fuel ((idx + 1) % TOTAL_PLAYERS)

/-- `nextPhase` from `App.tsx`, with explicit recursion fuel. The source
re-invokes `nextPhase` on a timer when every surviving player is ALL_IN; each
such re-entry advances the phase strictly (`PRE_FLOP → FLOP → TURN → RIVER`,
and the river resolves the hand without recursing), so the recursion depth
from any phase is at most 5 and `nextPhaseGo 5` is exact. -/
def nextPhaseGo : Nat → GameState → GameState
  | 0, st => st
  | fuel + 1, st =>
    let updatedPlayers := st.players.map (fun p => { p with currentBet := 0, lastAction := none })
    if st.phase = GamePhase.RIVER then resolveWinner st updatedPlayers
    else
      let pcd := dealPhase st.phase st.communityCards st.deck
      let firstIdx := skipToLive updatedPlayers TOTAL_PLAYERS ((st.dealerIndex + 1) % TOTAL_PLAYERS)
      let base :=
        { st with
          players := updatedPlayers,
          currentHighBet := 0,
          phase := pcd.1,
          communityCards := pcd.2.1,
          deck := pcd.2.2,
          message := "Dealing " ++ pcd.1.label ++ "..." }
      if (updatedPlayers.get? firstIdx).any (fun p => decide (p.status = PlayerStatus.ALL_IN)) then
        match findActiveNat updatedPlayers TOTAL_PLAYERS firstIdx with
        | some j => { base with activePlayerIndex := (j : Int) }
        | none => nextPhaseGo fuel base
      else { base with activePlayerIndex := (firstIdx : Int) }

/-- `nextPhase` from `App.tsx` (see `nextPhaseGo` for the fuel bound). -/
def nextPhase (st : GameState) : GameState := nextPhaseGo 5 st

/-! ### Turn advance (`advanceTurn` in `App.tsx`) -/

/-- `advanceTurn` from `App.tsx`: resolve immediately when a single non-folded
player remains, advance the phase when betting is closed, and otherwise move
`activePlayerIndex` to the next ACTIVE seat. -/
def advanceTurn (st : GameState) : GameState :=
  let activePlayers := qualifiers st.players
  let notAllIn := activePlayers.filter (fun p => decide (p.status ≠ PlayerStatus.ALL_IN))
  let nonFolded := qualifiers st.players
  if nonFolded.length = 1 then resolveWinner st nonFolded
  else
    let allMatched := notAllIn.all (fun p => decide (p.currentBet = st.currentHighBet))
    let everyoneActed := notAllIn.all (fun p => decide (p.lastAction ≠ none))
    if 0 < activePlayers.length ∧
        (activePlayers.all (fun p => decide (p.status = PlayerStatus.ALL_IN)) ∨
          (notAllIn.length ≤ 1 ∧ allMatched = true)) then
      nextPhase st
    else if allMatched = true ∧ everyoneActed = true then nextPhase st
    else
      match findActiveNat st.players TOTAL_PLAYERS
          (((st.activePlayerIndex + 1).tmod (TOTAL_PLAYERS : Int)).toNat) with
      | some idx => { st with activePlayerIndex := (idx : Int) }
      | none => nextPhase st

/-! ### Measures and concrete probe states used in the statements below -/

/-- Sum of an integer measure over the players (used for conservation). -/
def sumBy (f : Player → Int) (l : List Player) : Int := (l.map f).sum

/-- A minimal player template for concrete probe states. -/
def probePlayer : Player :=
  { id := 0, name := "P0", role := PlayerRole.USER, chips := 100, hand := [],
    status := PlayerStatus.ACTIVE, currentBet := 0, totalHandBet := 0 }

/-- A minimal game state template for concrete probe states. -/
def probeState : GameState :=
  { players := [probePlayer], pot := 30, deck := [], communityCards := [],
    dealerIndex := 0, activePlayerIndex := 0, currentHighBet := 20,
    phase := GamePhase.PRE_FLOP, isGameRunning := true, minBet := 20,
    smallBlindIndex := 0, bigBlindIndex := 0, showdownResults := [], message := "" }

/-- Probe player for the minimum-raise claim: a deep stack. -/
def raiseProbePlayer : Player := { probePlayer with chips := 1000 }

/-- Probe state for the minimum-raise claim: facing a high bet of 40. -/
def raiseProbeState : GameState :=
  { probeState with players := [raiseProbePlayer], currentHighBet := 40 }

/-- Probe state for the implicit-safety claim: a zero `currentHighBet` and a
(pathological) negative table minimum bet. -/
def safetyProbeState : GameState :=
  { probeState with
    players := [{ probePlayer with chips := 0 }],
    currentHighBet := 0, minBet := -100, pot := 50 }

/-- A folded opponent for the single-survivor probe. -/
def foldedProbePlayer : Player :=
  { probePlayer with
    id := 1, name := "P1", role := PlayerRole.BOT,
    status := PlayerStatus.FOLDED }

/-- Probe state for the single-survivor claim: one ACTIVE player, one FOLDED. -/
def survivorProbeState : GameState :=
  { probeState with players := [probePlayer, foldedProbePlayer], pot := 60 }

/-- The maximum evaluated score among a list of players. -/
def maxScore (q : List Player) (comm : List Card) : Nat :=
  q.foldr (fun p acc => max (evaluateHand p.hand comm).score acc) 0

/-- The number of showdown qualifiers achieving the maximum evaluated score. -/
def winnersCount (ps : List Player) (comm : List Card) : Nat :=
  ((qualifiers ps).filter
    (fun p => decide ((evaluateHand p.hand comm).score = maxScore (qualifiers ps) comm))).length

/-- Total chips awarded across a list of showdown results. -/
def sumAmounts (rs : List ShowdownResult) : Int := (rs.map (·.amount)).sum

/-- First showdown probe player: a pair of kings. -/
def showdownProbeA : Player :=
  { probePlayer with hand := [mkCard Suit.SPADES 13, mkCard Suit.HEARTS 13] }

/-- Second showdown probe player: the other pair of kings (an exact tie). -/
def showdownProbeB : Player :=
  { probePlayer with
    id := 1, name := "P1", role := PlayerRole.BOT,
    hand := [mkCard Suit.DIAMONDS 13, mkCard Suit.CLUBS 13] }

/-- Probe state for the split-pot claim: two tied qualifiers and a pot of 31. -/
def showdownProbeState : GameState :=
  { probeState with
    players := [showdownProbeA, showdownProbeB],
    communityCards := [mkCard Suit.CLUBS 2, mkCard Suit.DIAMONDS 3, mkCard Suit.HEARTS 5,
      mkCard Suit.SPADES 9, mkCard Suit.DIAMONDS 11],
    pot := 31 }

/-- Whether the seat at index `i` is BUSTED (out-of-range seats count as not
BUSTED, matching the loop guards that only ever probe in-range seats). -/
def bustedAt (ps : List Player) (i : Nat) : Bool :=
  decide ((ps.get? i).map (·.status) = some PlayerStatus.BUSTED)

/-- A player with the hole cards removed (used to state that dealing changes
nothing but the hand). -/
def eraseHand (p : Player) : Player := { p with hand := [] }

/-- One recorded action: acting seat, action kind, optional amount. -/
def ActRec := Nat × Action × Option Int

/-- Apply a sequence of recorded actions with `executePlayerAction`. -/
def applyActions (st : GameState) (acts : List ActRec) : GameState :=
  acts.foldl (fun s a => executePlayerAction s a.1 a.2.1 a.2.2) st

/-- Probe table for the money-conservation claim: nine 1000-chip players,
seat 0 the user. -/
def handProbePlayers : List Player :=
  (List.range 9).map (fun i =>
    { id := i, name := "P" ++ toString i,
      role := if i = 0 then PlayerRole.USER else PlayerRole.BOT,
      chips := 1000, hand := [], status := PlayerStatus.ACTIVE,
      currentBet := 0, totalHandBet := 0 })

/-- Probe action sequence for the money-conservation claim. -/
def handProbeActs : List ActRec :=
  [(3, Action.CALL, none), (4, Action.RAISE, some 100), (5, Action.FOLD, none),
    (6, Action.ALL_IN, none)]

/-- Probe table for the first-to-act claim: the user at seat 0 with exactly
the small blind (10 chips), one deep bot at seat 1, everyone else broke. -/
def blindProbePlayers : List Player :=
  (List.range 9).map (fun i =>
    { id := i, name := "P" ++ toString i,
      role := if i = 0 then PlayerRole.USER else PlayerRole.BOT,
      chips := if i = 0 then 10 else if i = 1 then 1000 else 0,
      hand := [], status := PlayerStatus.ACTIVE, currentBet := 0, totalHandBet := 0 })

/-- The number of community cards on the table in each betting phase. -/
def commLenFor : GamePhase → Nat
  | GamePhase.PRE_FLOP => 0
  | GamePhase.FLOP => 3
  | GamePhase.TURN => 4
  | GamePhase.RIVER => 5
  | _ => 0

/-- The number of dealing steps still separating a betting phase from the
showdown in an all-in run-out (bounds the recursion of `nextPhaseGo`). -/
def phaseDist : GamePhase → Nat
  | GamePhase.PRE_FLOP => 3
  | GamePhase.FLOP => 2
  | GamePhase.TURN => 1
  | _ => 0

/-- Probe table with exactly one ACTIVE player (seat 1) and one all-in. -/
def runoutProbePlayers : List Player :=
  (List.range 9).map (fun i =>
    { id := i, name := "P" ++ toString i,
      role := if i = 0 then PlayerRole.USER else PlayerRole.BOT,
      chips := if i = 1 then 500 else 0,
      hand := [],
      status :=
        if i = 0 then PlayerStatus.ALL_IN
        else if i = 1 then PlayerStatus.ACTIVE
        else PlayerStatus.BUSTED,
      currentBet := 0, totalHandBet := 0 })

/-- Probe state on the flop with one ACTIVE player left (the rest all-in or
busted). -/
def runoutProbeState : GameState :=
  { probeState with
    players := runoutProbePlayers,
    phase := GamePhase.FLOP,
    communityCards := [mkCard Suit.HEARTS 2, mkCard Suit.HEARTS 3, mkCard Suit.HEARTS 4],
    deck := [mkCard Suit.CLUBS 9, mkCard Suit.CLUBS 10, mkCard Suit.CLUBS 11,
      mkCard Suit.CLUBS 12, mkCard Suit.CLUBS 13],
    dealerIndex := 0,
    currentHighBet := 0,
    pot := 100 }

/-- Probe table with no ACTIVE player: two all-in, the rest busted. -/
def allinProbePlayers : List Player :=
  (List.range 9).map (fun i =>
    { id := i, name := "P" ++ toString i,
      role := if i = 0 then PlayerRole.USER else PlayerRole.BOT,
      chips := 0,
      hand := if i < 2 then [mkCard Suit.SPADES 14, mkCard Suit.SPADES 13] else [],
      status := if i < 2 then PlayerStatus.ALL_IN else PlayerStatus.BUSTED,
      currentBet := 0, totalHandBet := 0 })

/-- Probe state on the flop with everyone either all-in or busted. -/
def allinProbeState : GameState :=
  { runoutProbeState with players := allinProbePlayers }

/-! ### General list lemmas -/

theorem get?_some_lt {α} {l : List α} {i : Nat} {a : α} (h : l.get? i = some a) :
    i < l.length :=
  (List.get?_eq_some.mp h).1

theorem get?_set_same {α} {l : List α} {i : Nat} {a : α} (p2 : α) (h : l.get? i = some a) :
    (l.set i p2).get? i = some p2 := by
  have hi := get?_some_lt h
  simp [List.get?_eq_getElem?, List.getElem?_set_self, hi]

theorem getElem?_set_same {α} {l : List α} {i : Nat} {a : α} (p2 : α)
    (h : l.get? i = some a) : (l.set i p2)[i]? = some p2 := by
  have hi := get?_some_lt h
  simp [List.getElem?_set_self, hi]

theorem map_set_congr {β} (f : Player → β) {l : List Player} {i : Nat} {p : Player}
    (p2 : Player) (h : l.get? i = some p) (hf : f p2 = f p) :
    (l.set i p2).map f = l.map f := by
  induction l generalizing i with
  | nil => simp at h
  | cons a t ih =>
    cases i with
    | zero =>
      simp only [List.get?] at h
      cases h
      simp [List.set, hf]
    | succ n =>
      simp only [List.get?] at h
      simp [List.set, ih h]

theorem sumBy_set (f : Player → Int) {l : List Player} {i : Nat} {p : Player}
    (p2 : Player) (h : l.get? i = some p) :
    sumBy f (l.set i p2) = sumBy f l - f p + f p2 := by
  induction l generalizing i with
  | nil => simp at h
  | cons a t ih =>
    cases i with
    | zero =>
      simp only [List.get?] at h
      cases h
      simp [sumBy, List.set]
      ring
    | succ n =>
      simp only [List.get?] at h
      have := ih h
      simp [sumBy, List.set] at this ⊢
      omega

/-! ### C3: evaluator fixed vectors -/

/-- C3 (counterexample): on the first fixed vector — hole A♠ K♠, community
Q♠ J♠ 10♠ 2♥ 3♦ — the evaluator returns score `800 + 14 = 814`, not the 813
stated by the claim. -/
theorem evaluator_vector1_score_not_813 :
    (evaluateHand [mkCard Suit.SPADES 14, mkCard Suit.SPADES 13]
      [mkCard Suit.SPADES 12, mkCard Suit.SPADES 11, mkCard Suit.SPADES 10,
        mkCard Suit.HEARTS 2, mkCard Suit.DIAMONDS 3]).score ≠ 813 := by decide

/-- C3 (amended): the three fixed vectors evaluate exactly as claimed except
that the straight-flush score is 814 (`800 +` the high rank 14), not 813:
A♠K♠ + Q♠J♠10♠2♥3♦ → "Straight Flush" with cards A,K,Q,J,10 of spades and
score 814; 7♣7♦ + 7♥7♠2♣9♦K♣ → "Four of a Kind (7s)" with score 707;
2♥2♦ + 2♠9♣9♦3♥4♣ → "Full House (2s over 9s)" with score 602. -/
theorem evaluator_fixed_vectors :
    evaluateHand [mkCard Suit.SPADES 14, mkCard Suit.SPADES 13]
        [mkCard Suit.SPADES 12, mkCard Suit.SPADES 11, mkCard Suit.SPADES 10,
          mkCard Suit.HEARTS 2, mkCard Suit.DIAMONDS 3] =
      { score := 814, name := "Straight Flush",
        cards := [mkCard Suit.SPADES 14, mkCard Suit.SPADES 13, mkCard Suit.SPADES 12,
          mkCard Suit.SPADES 11, mkCard Suit.SPADES 10] } ∧
    ((evaluateHand [mkCard Suit.CLUBS 7, mkCard Suit.DIAMONDS 7]
        [mkCard Suit.HEARTS 7, mkCard Suit.SPADES 7, mkCard Suit.CLUBS 2,
          mkCard Suit.DIAMONDS 9, mkCard Suit.CLUBS 13]).name = "Four of a Kind (7\x27s)" ∧
      (evaluateHand [mkCard Suit.CLUBS 7, mkCard Suit.DIAMONDS 7]
        [mkCard Suit.HEARTS 7, mkCard Suit.SPADES 7, mkCard Suit.CLUBS 2,
          mkCard Suit.DIAMONDS 9, mkCard Suit.CLUBS 13]).score = 707) ∧
    ((evaluateHand [mkCard Suit.HEARTS 2, mkCard Suit.DIAMONDS 2]
        [mkCard Suit.SPADES 2, mkCard Suit.CLUBS 9, mkCard Suit.DIAMONDS 9,
          mkCard Suit.HEARTS 3, mkCard Suit.CLUBS 4]).name = "Full House (2\x27s over 9\x27s)" ∧
      (evaluateHand [mkCard Suit.HEARTS 2, mkCard Suit.DIAMONDS 2]
        [mkCard Suit.SPADES 2, mkCard Suit.CLUBS 9, mkCard Suit.DIAMONDS 9,
          mkCard Suit.HEARTS 3, mkCard Suit.CLUBS 4]).score = 602) := by decide

/-! ### C9: CHECK semantics -/

/-- C9 (counterexample): `executePlayerAction` enforces no legality condition
for CHECK. In `probeState` the acting player has `currentBet = 0` while
`currentHighBet = 20`, yet the CHECK is processed as a normal state update
(the action is recorded, nothing is rejected). -/
theorem check_applied_when_bet_unmatched :
    (probeState.players.get? 0).map (·.currentBet) = some 0 ∧
    probeState.currentHighBet = 20 ∧
    executePlayerAction probeState 0 Action.CHECK none =
      { probeState with
          players := [{ probePlayer with lastAction := some "Check" }],
          message := "P0 checked." } := by decide

/-- C9 (amended): applying CHECK moves no chips — every chip stack, round bet,
hand total, the pot and the current high bet are unchanged — but
`executePlayerAction` itself never rejects a CHECK, even when the acting
player has not matched `currentHighBet` (the equality condition is only
enforced by the UI layer, which offers Check only when the call amount is 0). -/
theorem check_moves_no_chips (st : GameState) (i : Nat) :
    (executePlayerAction st i Action.CHECK none).pot = st.pot ∧
    (executePlayerAction st i Action.CHECK none).currentHighBet = st.currentHighBet ∧
    (executePlayerAction st i Action.CHECK none).players.map (·.chips) =
      st.players.map (·.chips) ∧
    (executePlayerAction st i Action.CHECK none).players.map (·.currentBet) =
      st.players.map (·.currentBet) ∧
    (executePlayerAction st i Action.CHECK none).players.map (·.totalHandBet) =
      st.players.map (·.totalHandBet) := by
  cases hp : st.players.get? i with
  | none =>
    rw [List.get?_eq_getElem?] at hp
    simp [executePlayerAction, hp]
  | some p =>
    have h1 : (st.players.set i { p with lastAction := some "Check" }).map (·.chips) =
        st.players.map (·.chips) := map_set_congr _ _ hp rfl
    have h2 : (st.players.set i { p with lastAction := some "Check" }).map (·.currentBet) =
        st.players.map (·.currentBet) := map_set_congr _ _ hp rfl
    have h3 : (st.players.set i { p with lastAction := some "Check" }).map (·.totalHandBet) =
        st.players.map (·.totalHandBet) := map_set_congr _ _ hp rfl
    rw [List.get?_eq_getElem?] at hp
    simp [executePlayerAction, hp, h1, h2, h3]

/-! ### C2: minimum-raise enforcement -/

/-- C2: with `currentHighBet = 40`, a RAISE requesting a round total of 50 is
clamped up to the minimum raise 80 (2×40); if the maximum possible round
total `chips + currentBet` is below 80, the action instead becomes an all-in
at that capped total. In either case the action is processed, never
rejected. -/
theorem min_raise_enforcement (st : GameState) (i : Nat) (p : Player)
    (hp : st.players.get? i = some p) (hhb : st.currentHighBet = 40)
    (_hch : 0 ≤ p.chips) :
    ∃ q, (executePlayerAction st i Action.RAISE (some 50)).players.get? i = some q ∧
      ((80 ≤ p.chips + p.currentBet ∧ q.currentBet = 80) ∨
        (p.chips + p.currentBet < 80 ∧ q.currentBet = p.chips + p.currentBet ∧
          q.status = PlayerStatus.ALL_IN)) := by
  simp only [executePlayerAction, applyRaise, hp, hhb]
  norm_num
  split_ifs <;>
    refine ⟨_, getElem?_set_same _ hp, ?_⟩ <;>
    dsimp only <;>
    first
      | exact Or.inl (by omega)
      | exact Or.inr ⟨by omega, by omega, rfl⟩

/-- C2 witness: a player with 1000 chips and a round bet of 0 facing
`currentHighBet = 40` who raises to 50 ends the action with a round bet of
exactly 80. -/
theorem min_raise_enforcement_witness :
    ∃ q, (executePlayerAction raiseProbeState 0 Action.RAISE (some 50)).players.get? 0 =
        some q ∧
      ((80 ≤ raiseProbePlayer.chips + raiseProbePlayer.currentBet ∧ q.currentBet = 80) ∨
        (raiseProbePlayer.chips + raiseProbePlayer.currentBet < 80 ∧
          q.currentBet = raiseProbePlayer.chips + raiseProbePlayer.currentBet ∧
          q.status = PlayerStatus.ALL_IN)) :=
  min_raise_enforcement raiseProbeState 0 raiseProbePlayer (by decide) (by decide) (by decide)

/-! ### C10: implicit safety of `executePlayerAction` -/

/-- C10 (counterexample): the claimed hypotheses (non-negative chips, acting
bet at most the high bet) do not suffice — in a state whose `minBet` is
negative, a RAISE with a negative amount escapes both clamps and strictly
decreases the pot. -/
theorem raise_can_decrease_pot :
    (∀ p ∈ safetyProbeState.players, 0 ≤ p.chips) ∧
    safetyProbeState.players.map (·.currentBet) = [0] ∧
    safetyProbeState.currentHighBet = 0 ∧
    (executePlayerAction safetyProbeState 0 Action.RAISE (some (-50))).pot <
      safetyProbeState.pot := by decide

set_option maxHeartbeats 2000000 in
/-- C10 (amended): for every action kind and every integer amount (including
amounts exceeding the stack), applied to a state where every chip stack is
non-negative, the acting player has not bet beyond `currentHighBet`, and the
table minimum bet is non-negative, `executePlayerAction` keeps every chip
stack non-negative and never decreases the pot. -/
theorem action_safety (st : GameState) (i : Nat) (action : Action) (amount : Option Int)
    (hch : ∀ p ∈ st.players, 0 ≤ p.chips)
    (hcb : ∀ p, st.players.get? i = some p → p.currentBet ≤ st.currentHighBet)
    (hmb : 0 ≤ st.minBet) :
    (∀ q ∈ (executePlayerAction st i action amount).players, 0 ≤ q.chips) ∧
    st.pot ≤ (executePlayerAction st i action amount).pot := by
  cases hp : st.players.get? i with
  | none =>
    simp only [executePlayerAction, hp]
    exact ⟨hch, le_refl _⟩
  | some p =>
    have hpc : 0 ≤ p.chips := hch p (List.get?_mem hp)
    have hbet : p.currentBet ≤ st.currentHighBet := hcb p hp
    cases amount with
    | none =>
      cases action <;>
        simp only [executePlayerAction, applyRaise, hp] <;>
        (try split_ifs) <;>
        refine ⟨?_, by (try dsimp only); omega⟩ <;>
        · intro q hq
          (try dsimp only at hq)
          rcases List.mem_or_eq_of_mem_set hq with h | h
          · exact hch q h
          · subst h; (try dsimp only); omega
    | some v =>
      cases action <;>
        simp only [executePlayerAction, applyRaise, hp] <;>
        (try split_ifs) <;>
        refine ⟨?_, by (try dsimp only); omega⟩ <;>
        · intro q hq
          (try dsimp only at hq)
          rcases List.mem_or_eq_of_mem_set hq with h | h
          · exact hch q h
          · subst h; (try dsimp only); omega

/-- C10 witness: the amended safety theorem applied to a concrete in-range
state (the 1000-chip raise probe, table minimum 20) with an oversized raise
request of 5000. -/
theorem action_safety_witness :
    (∀ q ∈ (executePlayerAction raiseProbeState 0 Action.RAISE (some 5000)).players,
      0 ≤ q.chips) ∧
    raiseProbeState.pot ≤ (executePlayerAction raiseProbeState 0 Action.RAISE (some 5000)).pot :=
  action_safety raiseProbeState 0 Action.RAISE (some 5000) (by decide)
    (by
      intro p hp
      rw [show raiseProbeState.players.get? 0 = some raiseProbePlayer from rfl] at hp
      cases hp
      decide)
    (by decide)

/-! ### C5: single-survivor short-circuit -/

/-- C5: when exactly one player is neither FOLDED nor BUSTED, advancing the
turn resolves the hand at once: the survivor receives the entire pot, the
showdown record carries the sentinel score 9999 and no winning cards, and the
community cards and deck are untouched (no dealing, no evaluation — the
resulting state is determined without `evaluateHand`). -/
theorem single_survivor_short_circuit (st : GameState) (w : Player)
    (hw : qualifiers st.players = [w]) :
    advanceTurn st =
      { st with
        players := [{ w with
          chips := w.chips + st.pot,
          status :=
            if 0 < w.chips + st.pot then PlayerStatus.ACTIVE else PlayerStatus.BUSTED }],
        phase := GamePhase.SHOWDOWN,
        activePlayerIndex := -1,
        showdownResults := [{
          playerId := w.id, name := w.name, role := w.role,
          handDescription := "Last Player Standing", holeCards := w.hand,
          winningCards := [], amount := st.pot, isWinner := true, score := 9999 }],
        message := w.name ++ " Wins!" } := by
  have hwmem : w ∈ qualifiers st.players := by
    rw [hw]; exact List.mem_singleton_self w
  have hwp := List.of_mem_filter (by simpa [qualifiers] using hwmem :
    w ∈ st.players.filter
      (fun p => decide (p.status ≠ PlayerStatus.FOLDED ∧ p.status ≠ PlayerStatus.BUSTED)))
  have hwq : w.status ≠ PlayerStatus.FOLDED ∧ w.status ≠ PlayerStatus.BUSTED := by
    simpa using hwp
  simp only [advanceTurn, resolveWinner, hw]
  simp [qualifiers, hwq.1, hwq.2]

/-- C5 witness: in a two-player state where the opponent has folded,
advancing the turn awards the 60-chip pot to the survivor with the sentinel
showdown record. -/
theorem single_survivor_short_circuit_witness :
    advanceTurn survivorProbeState =
      { survivorProbeState with
        players := [{ probePlayer with
          chips := probePlayer.chips + survivorProbeState.pot,
          status :=
            if 0 < probePlayer.chips + survivorProbeState.pot then PlayerStatus.ACTIVE
            else PlayerStatus.BUSTED }],
        phase := GamePhase.SHOWDOWN,
        activePlayerIndex := -1,
        showdownResults := [{
          playerId := probePlayer.id, name := probePlayer.name,
          role := probePlayer.role, handDescription := "Last Player Standing",
          holeCards := probePlayer.hand, winningCards := [], amount := survivorProbeState.pot,
          isWinner := true, score := 9999 }],
        message := probePlayer.name ++ " Wins!" } :=
  single_survivor_short_circuit survivorProbeState probePlayer (by decide)

/-! ### C6: split-pot settlement -/

theorem sortByScoreDesc_perm (l : List (Player × HandRank)) : (sortByScoreDesc l).Perm l :=
  List.perm_insertionSort _ l

theorem sortByScoreDesc_sorted (l : List (Player × HandRank)) :
    List.Sorted (fun a b : Player × HandRank => b.2.score ≤ a.2.score) (sortByScoreDesc l) := by
  haveI : IsTotal (Player × HandRank) (fun a b => b.2.score ≤ a.2.score) :=
    ⟨fun a b => le_total _ _⟩
  haveI : IsTrans (Player × HandRank) (fun a b => b.2.score ≤ a.2.score) :=
    ⟨fun a b c h1 h2 => le_trans h2 h1⟩
  exact List.sorted_insertionSort _ l

theorem maxScore_cons (a : Player) (t : List Player) (comm : List Card) :
    maxScore (a :: t) comm = max (evaluateHand a.hand comm).score (maxScore t comm) := rfl

theorem maxScore_ge (q : List Player) (comm : List Card) :
    ∀ p ∈ q, (evaluateHand p.hand comm).score ≤ maxScore q comm := by
  induction q with
  | nil => simp
  | cons a t ih =>
    intro p hp
    rw [maxScore_cons]
    rcases List.mem_cons.mp hp with rfl | hp
    · exact le_max_left _ _
    · exact le_trans (ih p hp) (le_max_right _ _)

theorem maxScore_attained (q : List Player) (comm : List Card) (hne : q ≠ []) :
    ∃ p ∈ q, (evaluateHand p.hand comm).score = maxScore q comm := by
  induction q with
  | nil => exact absurd rfl hne
  | cons a t ih =>
    by_cases ht : t = []
    · subst ht
      refine ⟨a, List.mem_singleton_self a, ?_⟩
      rw [maxScore_cons]
      exact (max_eq_left (Nat.zero_le _)).symm
    · rcases ih ht with ⟨p, hp, hps⟩
      by_cases hc : maxScore t comm ≤ (evaluateHand a.hand comm).score
      · refine ⟨a, List.mem_cons_self a t, ?_⟩
        rw [maxScore_cons]
        exact (max_eq_left hc).symm
      · refine ⟨p, List.mem_cons_of_mem a hp, ?_⟩
        rw [maxScore_cons, max_eq_right (le_of_not_le hc), hps]

theorem sum_ite_score (l : List (Player × HandRank)) (M : Nat) (s : Int) :
    (l.map (fun e => if e.2.score = M then s else 0)).sum =
      ((l.countP (fun e => decide (e.2.score = M)) : Nat) : Int) * s := by
  induction l with
  | nil => simp
  | cons a t ih =>
    simp only [List.map_cons, List.sum_cons, List.countP_cons, ih]
    by_cases h : a.2.score = M
    · simp only [h, if_pos rfl]
      simp
      ring
    · simp [h]

/-- C6: at a multi-way showdown (at least two qualifying players), exactly the
qualifying players whose evaluated score equals the maximum score are marked
winners, each winner is awarded `pot` floor-divided by the number of winners,
every non-winner is awarded 0, the result list covers exactly the qualifying
players, and the total amount awarded is at most the pot. -/
theorem split_pot_settlement (st : GameState) (currentPlayers : List Player)
    (hq : 2 ≤ (qualifiers currentPlayers).length) :
    (∀ r ∈ (resolveWinner st currentPlayers).showdownResults,
        (r.isWinner = true ↔ r.score = maxScore (qualifiers currentPlayers) st.communityCards)) ∧
    (∀ r ∈ (resolveWinner st currentPlayers).showdownResults,
        r.amount =
          if r.score = maxScore (qualifiers currentPlayers) st.communityCards then
            Int.fdiv st.pot ((winnersCount currentPlayers st.communityCards : Nat) : Int)
          else 0) ∧
    ((resolveWinner st currentPlayers).showdownResults.map (·.playerId)).Perm
      ((qualifiers currentPlayers).map (·.id)) ∧
    sumAmounts (resolveWinner st currentPlayers).showdownResults ≤ st.pot := by
  set q := qualifiers currentPlayers with hqdef
  set comm := st.communityCards with hcomm
  set M := maxScore q comm with hM
  set ev := q.map (fun p => (p, evaluateHand p.hand comm)) with hev
  obtain ⟨e, rest, hsort⟩ : ∃ e rest, sortByScoreDesc ev = e :: rest := by
    have hlen : (sortByScoreDesc ev).length = q.length := by
      rw [(sortByScoreDesc_perm ev).length_eq, hev, List.length_map]
    cases hs : sortByScoreDesc ev with
    | nil => rw [hs] at hlen; simp at hlen; omega
    | cons a b => exact ⟨a, b, rfl⟩
  have hbest : e.2.score = M := by
    have hupper : e.2.score ≤ M := by
      have hmem : e ∈ ev := (sortByScoreDesc_perm ev).mem_iff.mp (by rw [hsort]; simp)
      rw [hev] at hmem
      rcases List.mem_map.mp hmem with ⟨p, hp, rfl⟩
      exact maxScore_ge q comm p hp
    have hlower : M ≤ e.2.score := by
      have hne : q ≠ [] := by
        intro h; rw [h] at hq; simp at hq
      rcases maxScore_attained q comm hne with ⟨p, hp, hps⟩
      have hmem : (p, evaluateHand p.hand comm) ∈ sortByScoreDesc ev :=
        (sortByScoreDesc_perm ev).mem_iff.mpr (by rw [hev]; exact List.mem_map_of_mem _ hp)
      rw [hsort] at hmem
      rcases List.mem_cons.mp hmem with heq | hmem
      · rw [← heq]
        dsimp only
        omega
      · have hsorted := sortByScoreDesc_sorted ev
        rw [hsort] at hsorted
        have hle := (List.sorted_cons.mp hsorted).1 _ hmem
        simp only at hle
        omega
    omega
  have hWeq : ((e :: rest).filter (fun x => decide (x.2.score = e.2.score))).length =
      winnersCount currentPlayers comm := by
    have hL : ((e :: rest).filter (fun x => decide (x.2.score = e.2.score))).length =
        q.countP (fun p => decide ((evaluateHand p.hand comm).score = e.2.score)) := by
      rw [← hsort, ← List.countP_eq_length_filter, (sortByScoreDesc_perm ev).countP_eq, hev,
        List.countP_map]
      rfl
    rw [hL, hbest, winnersCount, ← hqdef, ← List.countP_eq_length_filter, ← hM]
  have hne1 : ¬ (q.length = 1) := by omega
  have hsort2 : sortByScoreDesc (q.map (fun p => (p, evaluateHand p.hand st.communityCards))) =
      e :: rest := by
    rw [← hcomm, ← hev]; exact hsort
  have hres : (resolveWinner st currentPlayers).showdownResults =
      (e :: rest).map (fun x =>
        ({
          playerId := x.1.id, name := x.1.name, role := x.1.role,
          handDescription := x.2.name, holeCards := x.1.hand,
          winningCards := x.2.cards,
          amount :=
            if x.2.score = e.2.score then
              Int.fdiv st.pot
                (((e :: rest).filter (fun y => decide (y.2.score = e.2.score))).length : Int)
            else 0,
          isWinner := decide (x.2.score = e.2.score),
          score := x.2.score } : ShowdownResult)) := by
    simp only [resolveWinner, ← hqdef, hsort2, if_neg hne1]
  refine ⟨?_, ?_, ?_, ?_⟩
  · intro r hr
    rw [hres] at hr
    rcases List.mem_map.mp hr with ⟨x, hx, rfl⟩
    simp [hbest]
  · intro r hr
    rw [hres] at hr
    rcases List.mem_map.mp hr with ⟨x, hx, rfl⟩
    dsimp only
    rw [hWeq, hbest]
  · rw [hres, ← hsort, List.map_map]
    have h2 : ((sortByScoreDesc ev).map (fun x : Player × HandRank => x.1.id)).Perm
        (ev.map (fun x : Player × HandRank => x.1.id)) :=
      (sortByScoreDesc_perm ev).map _
    refine List.Perm.trans ?_ (h2.trans ?_)
    · exact List.Perm.refl _
    · rw [hev, List.map_map]
      exact List.Perm.refl _
  · rw [hres, sumAmounts, List.map_map]
    have h3 : ((fun r : ShowdownResult => r.amount) ∘
        (fun x : Player × HandRank =>
          ({
            playerId := x.1.id, name := x.1.name, role := x.1.role,
            handDescription := x.2.name, holeCards := x.1.hand,
            winningCards := x.2.cards,
            amount :=
              if x.2.score = e.2.score then
                Int.fdiv st.pot
                  (((e :: rest).filter (fun y => decide (y.2.score = e.2.score))).length : Int)
              else 0,
            isWinner := decide (x.2.score = e.2.score),
            score := x.2.score } : ShowdownResult))) =
        (fun x : Player × HandRank =>
          if x.2.score = e.2.score then
            Int.fdiv st.pot
              (((e :: rest).filter (fun y => decide (y.2.score = e.2.score))).length : Int)
          else 0) := rfl
    rw [h3, sum_ite_score]
    have hWpos : 1 ≤ ((e :: rest).filter (fun y => decide (y.2.score = e.2.score))).length := by
      have hmem : e ∈ (e :: rest).filter (fun y => decide (y.2.score = e.2.score)) :=
        List.mem_filter.mpr ⟨List.mem_cons_self e rest, by simp⟩
      exact List.length_pos.mpr (List.ne_nil_of_mem hmem)
    rw [List.countP_eq_length_filter]
    set W := ((e :: rest).filter (fun y => decide (y.2.score = e.2.score))).length with hWdef
    have h0 : (0:Int) < (W : Int) := by exact_mod_cast hWpos
    rw [Int.fdiv_eq_ediv _ (le_of_lt h0)]
    calc (W : Int) * (st.pot / (W : Int)) = st.pot / (W : Int) * (W : Int) := by ring
    _ ≤ st.pot := Int.ediv_mul_le st.pot (by omega)

/-- C6 witness: the split-pot theorem applied to a concrete two-player tie
(both hold a pair of kings over the same board, pot 31). -/
theorem split_pot_settlement_witness :
    (∀ r ∈ (resolveWinner showdownProbeState showdownProbeState.players).showdownResults,
        (r.isWinner = true ↔
          r.score = maxScore (qualifiers showdownProbeState.players)
            showdownProbeState.communityCards)) ∧
    (∀ r ∈ (resolveWinner showdownProbeState showdownProbeState.players).showdownResults,
        r.amount =
          if r.score = maxScore (qualifiers showdownProbeState.players)
              showdownProbeState.communityCards then
            Int.fdiv showdownProbeState.pot
              ((winnersCount showdownProbeState.players showdownProbeState.communityCards :
                Nat) : Int)
          else 0) ∧
    ((resolveWinner showdownProbeState showdownProbeState.players).showdownResults.map
        (·.playerId)).Perm ((qualifiers showdownProbeState.players).map (·.id)) ∧
    sumAmounts (resolveWinner showdownProbeState showdownProbeState.players).showdownResults ≤
      showdownProbeState.pot :=
  split_pot_settlement showdownProbeState showdownProbeState.players (by decide)

/-! ### Seat-search and dealing lemmas (used by C1 and C8) -/

theorem get?_set_other {α} (l : List α) {i j : Nat} (a : α) (h : i ≠ j) :
    (l.set i a).get? j = l.get? j := by
  induction l generalizing i j with
  | nil => simp
  | cons x t ih =>
    cases i with
    | zero =>
      cases j with
      | zero => exact absurd rfl h
      | succ m => simp [List.set]
    | succ n =>
      cases j with
      | zero => simp [List.set]
      | succ m =>
        simp only [List.set, List.get?]
        exact ih (fun hh => h (by rw [hh]))

theorem skipBusted_spec (ps : List Player) :
    ∀ (fuel idx : Nat), idx < 9 →
      (∃ k, k < fuel ∧ skipBusted ps fuel idx = (idx + k) % 9 ∧
        bustedAt ps ((idx + k) % 9) = false ∧
        (∀ m, m < k → bustedAt ps ((idx + m) % 9) = true)) ∨
      (∀ k, k < fuel → bustedAt ps ((idx + k) % 9) = true) := by
  intro fuel
  induction fuel with
  | zero =>
    intro idx _
    right
    intro k hk
    exact absurd hk (Nat.not_lt_zero k)
  | succ fuel ih =>
    intro idx hidx
    have hid9 : (idx + 0) % 9 = idx := by omega
    cases hps : ps.get? idx with
    | none =>
      have hps2 : ps[idx]? = none := by rw [← List.get?_eq_getElem?]; exact hps
      left
      refine ⟨0, Nat.succ_pos fuel, ?_, ?_, ?_⟩
      · rw [hid9]
        simp [skipBusted, hps, hps2]
      · rw [hid9]
        simp [bustedAt, hps, hps2]
      · intro m hm
        exact absurd hm (Nat.not_lt_zero m)
    | some p =>
      have hps2 : ps[idx]? = some p := by rw [← List.get?_eq_getElem?]; exact hps
      by_cases hb : p.status = PlayerStatus.BUSTED
      · have hrec : skipBusted ps (fuel + 1) idx =
            skipBusted ps fuel ((idx + 1) % 9) := by
          simp [skipBusted, hps, hps2, hb, TOTAL_PLAYERS]
        have hlt : (idx + 1) % 9 < 9 := Nat.mod_lt _ (by omega)
        rcases ih ((idx + 1) % 9) hlt with ⟨k, hk, heq, hnb, hmin⟩ | hall
        · left
          refine ⟨k + 1, by omega, ?_, ?_, ?_⟩
          · rw [hrec, heq]
            omega
          · have hix : ((idx + 1) % 9 + k) % 9 = (idx + (k + 1)) % 9 := by omega
            rw [← hix]
            exact hnb
          · intro m hm
            cases m with
            | zero =>
              rw [hid9]
              simp [bustedAt, hps, hps2, hb]
            | succ m2 =>
              have hix : ((idx + 1) % 9 + m2) % 9 = (idx + (m2 + 1)) % 9 := by omega
              rw [← hix]
              exact hmin m2 (by omega)
        · right
          intro k hk
          cases k with
          | zero =>
            rw [hid9]
            simp [bustedAt, hps, hps2, hb]
          | succ k2 =>
            have hix : ((idx + 1) % 9 + k2) % 9 = (idx + (k2 + 1)) % 9 := by omega
            rw [← hix]
            exact hall k2 (by omega)
      · left
        refine ⟨0, Nat.succ_pos fuel, ?_, ?_, ?_⟩
        · rw [hid9]
          simp [skipBusted, hps, hps2, hb]
        · rw [hid9]
          simp [bustedAt, hps, hps2, hb]
        · intro m hm
          exact absurd hm (Nat.not_lt_zero m)

theorem skipBusted_found (ps : List Player) (idx : Nat) (hidx : idx < 9)
    (t : Nat) (ht : t < 9) (htb : bustedAt ps t = false) :
    skipBusted ps 9 idx < 9 ∧ bustedAt ps (skipBusted ps 9 idx) = false := by
  rcases skipBusted_spec ps 9 idx hidx with ⟨k, _, heq, hnb, _⟩ | hall
  · rw [heq]
    exact ⟨Nat.mod_lt _ (by omega), hnb⟩
  · exfalso
    have hk9 : (t + 9 - idx) % 9 < 9 := Nat.mod_lt _ (by omega)
    have hix : (idx + (t + 9 - idx) % 9) % 9 = t := by omega
    have hc := hall ((t + 9 - idx) % 9) hk9
    rw [hix, htb] at hc
    exact Bool.false_ne_true hc

theorem skipBusted_ne (ps : List Player) (s : Nat) (hs : s < 9)
    (t : Nat) (ht : t < 9) (hts : t ≠ s) (htb : bustedAt ps t = false) :
    skipBusted ps 9 ((s + 1) % 9) ≠ s := by
  have hidx : (s + 1) % 9 < 9 := Nat.mod_lt _ (by omega)
  rcases skipBusted_spec ps 9 ((s + 1) % 9) hidx with ⟨k, hk, heq, hnb, hmin⟩ | hall
  · intro hcon
    rw [hcon] at heq
    have hk8 : k = 8 := by omega
    subst hk8
    have hm : (t + 17 - s) % 9 < 8 := by omega
    have hix : ((s + 1) % 9 + (t + 17 - s) % 9) % 9 = t := by omega
    have hc := hmin ((t + 17 - s) % 9) hm
    rw [hix, htb] at hc
    exact Bool.false_ne_true hc
  · intro _
    have hk9 : (t + 9 - (s + 1) % 9) % 9 < 9 := Nat.mod_lt _ (by omega)
    have hix : ((s + 1) % 9 + (t + 9 - (s + 1) % 9) % 9) % 9 = t := by omega
    have hc := hall ((t + 9 - (s + 1) % 9) % 9) hk9
    rw [hix, htb] at hc
    exact Bool.false_ne_true hc

theorem dealHoleCards_proj {β} (g : Player → β)
    (hg : ∀ p h2, g { p with hand := h2 } = g p) :
    ∀ (ps : List Player) (deck : List Card), (dealHoleCards ps deck).1.map g = ps.map g := by
  intro ps
  induction ps with
  | nil =>
    intro deck
    simp [dealHoleCards]
  | cons p t ih =>
    intro deck
    by_cases hs : p.status = PlayerStatus.ACTIVE
    · simp only [dealHoleCards, if_pos hs, List.map_cons, ih]
      rw [hg]
    · simp only [dealHoleCards, if_neg hs, List.map_cons, ih]

theorem dealHoleCards_length (ps : List Player) (deck : List Card) :
    (dealHoleCards ps deck).1.length = ps.length := by
  have h := dealHoleCards_proj (fun _ => ()) (fun _ _ => rfl) ps deck
  have h2 := congrArg List.length h
  simpa using h2

theorem bustedAt_deal (ps : List Player) (deck : List Card) (t : Nat) :
    bustedAt (dealHoleCards ps deck).1 t = bustedAt ps t := by
  have hmap := dealHoleCards_proj (fun p => p.status) (fun _ _ => rfl) ps deck
  have hget := congrArg (fun l => l.get? t) hmap
  simp only [List.get?_eq_getElem?, List.getElem?_map] at hget
  simp only [bustedAt, List.get?_eq_getElem?]
  rw [hget]

theorem proj_at_deal {β} (g : Player → β) (hg : ∀ p h2, g { p with hand := h2 } = g p)
    (ps : List Player) (deck : List Card) (i : Nat) :
    ((dealHoleCards ps deck).1.get? i).map g = (ps.get? i).map g := by
  have hmap := dealHoleCards_proj g hg ps deck
  have hget := congrArg (fun l => l.get? i) hmap
  simpa [List.get?_eq_getElem?, List.getElem?_map] using hget

theorem resetPlayers_get? (ps : List Player) (i : Nat) :
    (resetPlayers ps).get? i = (ps.get? i).map (fun p =>
      { p with
        status := if 0 < p.chips then PlayerStatus.ACTIVE else PlayerStatus.BUSTED,
        hand := [], currentBet := 0, lastAction := none, totalHandBet := 0 }) := by
  simp [resetPlayers, List.get?_eq_getElem?, List.getElem?_map]

theorem tHB_zero_reset_deal (cps : List Player) (deck : List Card) (i : Nat) (p : Player)
    (hp : (dealHoleCards (resetPlayers cps) deck).1.get? i = some p) :
    p.totalHandBet = 0 := by
  have h := proj_at_deal (fun q => q.totalHandBet) (fun _ _ => rfl) (resetPlayers cps) deck i
  rw [hp, resetPlayers_get?] at h
  cases hq : cps.get? i with
  | none => rw [hq] at h; simp at h
  | some q => rw [hq] at h; simp at h; exact h

theorem sumBy_deal (f : Player → Int) (hf : ∀ p h2, f { p with hand := h2 } = f p)
    (ps : List Player) (deck : List Card) :
    sumBy f (dealHoleCards ps deck).1 = sumBy f ps := by
  have h := dealHoleCards_proj f hf ps deck
  rw [sumBy, sumBy, h]

theorem sumBy_resetPlayers_chips (cps : List Player) :
    sumBy (·.chips) (resetPlayers cps) = sumBy (·.chips) cps := by
  induction cps with
  | nil => rfl
  | cons p t ih =>
    simp only [resetPlayers, List.map_cons, sumBy, List.sum_cons] at ih ⊢
    omega

theorem sumBy_resetPlayers_tHB (cps : List Player) :
    sumBy (·.totalHandBet) (resetPlayers cps) = 0 := by
  induction cps with
  | nil => rfl
  | cons p t ih =>
    simp only [resetPlayers, List.map_cons, sumBy, List.sum_cons] at ih ⊢
    omega

set_option maxHeartbeats 2000000 in
/-- Each player action preserves the two money invariants: the pot equals the
sum of hand totals, and chips plus hand totals sum to the hand-start amount. -/
theorem exec_invariant (st : GameState) (i : Nat) (a : Action) (amt : Option Int) (c0 : Int)
    (h1 : st.pot = sumBy (·.totalHandBet) st.players)
    (h2 : sumBy (·.chips) st.players + sumBy (·.totalHandBet) st.players = c0) :
    (executePlayerAction st i a amt).pot =
      sumBy (·.totalHandBet) (executePlayerAction st i a amt).players ∧
    sumBy (·.chips) (executePlayerAction st i a amt).players +
      sumBy (·.totalHandBet) (executePlayerAction st i a amt).players = c0 := by
  cases hp : st.players.get? i with
  | none =>
    simp only [executePlayerAction, hp]
    exact ⟨h1, h2⟩
  | some p =>
    have hsumC : ∀ p2 : Player, sumBy (·.chips) (st.players.set i p2) =
        sumBy (·.chips) st.players - p.chips + p2.chips := fun p2 => sumBy_set _ p2 hp
    have hsumT : ∀ p2 : Player, sumBy (·.totalHandBet) (st.players.set i p2) =
        sumBy (·.totalHandBet) st.players - p.totalHandBet + p2.totalHandBet :=
      fun p2 => sumBy_set _ p2 hp
    cases amt with
    | none =>
      cases a <;>
        simp only [executePlayerAction, applyRaise, hp] <;>
        (try split_ifs) <;>
        constructor <;>
        · simp only [hsumC, hsumT]
          omega
    | some v =>
      cases a <;>
        simp only [executePlayerAction, applyRaise, hp] <;>
        (try split_ifs) <;>
        constructor <;>
        · simp only [hsumC, hsumT]
          omega

/-- A game that passes the setup victory/defeat check has two distinct
non-BUSTED seats (the user and at least one active bot). -/
theorem setup_live_indices (cps : List Player) (h9 : cps.length = 9)
    (hgo : setupGameOver (resetPlayers cps) = false) :
    ∃ iu ib, iu < 9 ∧ ib < 9 ∧ iu ≠ ib ∧
      bustedAt (resetPlayers cps) iu = false ∧ bustedAt (resetPlayers cps) ib = false := by
  have hlen : (resetPlayers cps).length = 9 := by
    simp [resetPlayers, h9]
  cases hu : (resetPlayers cps).find? (fun p => decide (p.role = PlayerRole.USER)) with
  | none => simp [setupGameOver, hu] at hgo
  | some u =>
    have hu2 := List.find?_some hu
    have huMem := List.mem_of_find?_eq_some hu
    simp only [setupGameOver, hu, Bool.or_eq_false_iff, decide_eq_false_iff_not] at hgo
    obtain ⟨hust, hbots⟩ := hgo
    have hrole : u.role = PlayerRole.USER := by simpa using hu2
    obtain ⟨b, hbmem⟩ : ∃ b, b ∈ (resetPlayers cps).filter
        (fun p => decide (p.role = PlayerRole.BOT ∧ p.status = PlayerStatus.ACTIVE)) := by
      cases hfl : (resetPlayers cps).filter
          (fun p => decide (p.role = PlayerRole.BOT ∧ p.status = PlayerStatus.ACTIVE)) with
      | nil => rw [hfl] at hbots; simp at hbots
      | cons x t => exact ⟨x, hfl ▸ List.mem_cons_self x t⟩
    have hb2 := List.of_mem_filter hbmem
    have hbMem := List.mem_of_mem_filter hbmem
    have hbprops : b.role = PlayerRole.BOT ∧ b.status = PlayerStatus.ACTIVE := by
      simpa using hb2
    obtain ⟨iu, hiu⟩ := List.get?_of_mem huMem
    obtain ⟨ib, hib⟩ := List.get?_of_mem hbMem
    have hiu2 : (resetPlayers cps)[iu]? = some u := by
      rw [← List.get?_eq_getElem?]; exact hiu
    have hib2 : (resetPlayers cps)[ib]? = some b := by
      rw [← List.get?_eq_getElem?]; exact hib
    refine ⟨iu, ib, ?_, ?_, ?_, ?_, ?_⟩
    · have := get?_some_lt hiu
      omega
    · have := get?_some_lt hib
      omega
    · intro h
      rw [h, hib] at hiu
      have heq : b = u := by injection hiu
      rw [heq, hrole] at hbprops
      simp at hbprops
    · simp [bustedAt, hiu2, hust]
    · simp [bustedAt, hib2, hbprops.2]

theorem postBlind_eq_set (ps : List Player) (i : Nat) (blind : Int) (p : Player)
    (hp : ps.get? i = some p) :
    postBlind ps i blind = ps.set i
      { p with
        chips := p.chips - min blind p.chips,
        currentBet := min blind p.chips,
        totalHandBet := min blind p.chips,
        status :=
          if p.chips - min blind p.chips = 0 then PlayerStatus.ALL_IN else p.status } := by
  simp only [postBlind, hp]

set_option maxHeartbeats 1000000 in
/-- The per-hand setup establishes the money invariants: the pot equals the
posted blinds, which equal the sum of hand totals, and chips plus hand totals
sum to the chips the players brought into the hand. -/
theorem startNewHand_sums (prev : GameState) (cps : List Player) (dealerIdx : Nat)
    (deck : List Card) (h9 : cps.length = 9)
    (hgo : setupGameOver (resetPlayers cps) = false) :
    (startNewHand prev cps dealerIdx deck).pot =
      sumBy (·.totalHandBet) (startNewHand prev cps dealerIdx deck).players ∧
    sumBy (·.chips) (startNewHand prev cps dealerIdx deck).players +
      sumBy (·.totalHandBet) (startNewHand prev cps dealerIdx deck).players =
      sumBy (·.chips) cps := by
  obtain ⟨iu, ib, hiu9, hib9, hne, hbu, hbb0⟩ := setup_live_indices cps h9 hgo
  have hbu' : bustedAt (dealHoleCards (resetPlayers cps) deck).1 iu = false := by
    rw [bustedAt_deal]; exact hbu
  have hbb' : bustedAt (dealHoleCards (resetPlayers cps) deck).1 ib = false := by
    rw [bustedAt_deal]; exact hbb0
  set dealt := (dealHoleCards (resetPlayers cps) deck).1 with hdealt
  have hlen : dealt.length = 9 := by
    rw [hdealt, dealHoleCards_length]
    simp [resetPlayers, h9]
  have hd1 : (dealerIdx + 1) % 9 < 9 := Nat.mod_lt _ (by omega)
  obtain ⟨hsb9, hsbNB⟩ := skipBusted_found dealt _ hd1 iu hiu9 hbu'
  set sb := skipBusted dealt 9 ((dealerIdx + 1) % 9) with hsbdef
  have hsb1 : (sb + 1) % 9 < 9 := Nat.mod_lt _ (by omega)
  obtain ⟨hbb9, hbbNB⟩ := skipBusted_found dealt _ hsb1 iu hiu9 hbu'
  set bb := skipBusted dealt 9 ((sb + 1) % 9) with hbbdef
  have hbbne : bb ≠ sb := by
    by_cases hiusb : iu = sb
    · refine skipBusted_ne dealt sb hsb9 ib hib9 ?_ hbb'
      intro h
      exact hne (by rw [hiusb, h])
    · exact skipBusted_ne dealt sb hsb9 iu hiu9 hiusb hbu'
  obtain ⟨psb, hpsb⟩ : ∃ q, dealt.get? sb = some q := by
    cases h : dealt.get? sb with
    | none =>
      have := List.get?_eq_none.mp h
      omega
    | some q => exact ⟨q, rfl⟩
  have hpsbT : psb.totalHandBet = 0 := tHB_zero_reset_deal cps deck sb psb hpsb
  have hps2get : (postBlind dealt sb INITIAL_SMALL_BLIND).get? bb = dealt.get? bb := by
    simp only [postBlind, hpsb]
    exact get?_set_other dealt _ (fun h => hbbne h.symm)
  obtain ⟨pbb, hpbb⟩ : ∃ q, dealt.get? bb = some q := by
    cases h : dealt.get? bb with
    | none =>
      have := List.get?_eq_none.mp h
      omega
    | some q => exact ⟨q, rfl⟩
  have hpbbT : pbb.totalHandBet = 0 := tHB_zero_reset_deal cps deck bb pbb hpbb
  have hps2pbb : (postBlind dealt sb INITIAL_SMALL_BLIND).get? bb = some pbb := by
    rw [hps2get, hpbb]
  have hpsbE : dealt[sb]? = some psb := by
    rw [← List.get?_eq_getElem?]; exact hpsb
  have hps2pbbE : (postBlind dealt sb INITIAL_SMALL_BLIND)[bb]? = some pbb := by
    rw [← List.get?_eq_getElem?]; exact hps2pbb
  have hSC : sumBy (·.chips) dealt = sumBy (·.chips) cps := by
    rw [hdealt, sumBy_deal (fun q => q.chips) (fun _ _ => rfl), sumBy_resetPlayers_chips]
  have hST : sumBy (·.totalHandBet) dealt = 0 := by
    rw [hdealt, sumBy_deal (fun q => q.totalHandBet) (fun _ _ => rfl), sumBy_resetPlayers_tHB]
  have hA : blindAmount dealt sb INITIAL_SMALL_BLIND = min INITIAL_SMALL_BLIND psb.chips := by
    simp [blindAmount, hpsb, hpsbE]
  have hB : blindAmount (postBlind dealt sb INITIAL_SMALL_BLIND) bb INITIAL_BIG_BLIND =
      min INITIAL_BIG_BLIND pbb.chips := by
    simp [blindAmount, hps2pbb, hps2pbbE]
  have hs2C : sumBy (·.chips) (postBlind dealt sb INITIAL_SMALL_BLIND) =
      sumBy (·.chips) dealt - min INITIAL_SMALL_BLIND psb.chips := by
    rw [postBlind_eq_set dealt sb _ psb hpsb, sumBy_set _ _ hpsb]
    dsimp only
    omega
  have hs2T : sumBy (·.totalHandBet) (postBlind dealt sb INITIAL_SMALL_BLIND) =
      min INITIAL_SMALL_BLIND psb.chips := by
    rw [postBlind_eq_set dealt sb _ psb hpsb, sumBy_set _ _ hpsb]
    dsimp only
    omega
  have hs3C : sumBy (·.chips)
        (postBlind (postBlind dealt sb INITIAL_SMALL_BLIND) bb INITIAL_BIG_BLIND) =
      sumBy (·.chips) dealt - min INITIAL_SMALL_BLIND psb.chips -
        min INITIAL_BIG_BLIND pbb.chips := by
    rw [postBlind_eq_set _ bb _ pbb hps2pbb, sumBy_set _ _ hps2pbb]
    dsimp only
    omega
  have hs3T : sumBy (·.totalHandBet)
        (postBlind (postBlind dealt sb INITIAL_SMALL_BLIND) bb INITIAL_BIG_BLIND) =
      min INITIAL_SMALL_BLIND psb.chips + min INITIAL_BIG_BLIND pbb.chips := by
    rw [postBlind_eq_set _ bb _ pbb hps2pbb, sumBy_set _ _ hps2pbb]
    dsimp only
    omega
  have hmain : startNewHand prev cps dealerIdx deck =
      { players := postBlind (postBlind dealt sb INITIAL_SMALL_BLIND) bb INITIAL_BIG_BLIND,
        pot := blindAmount dealt sb INITIAL_SMALL_BLIND +
          blindAmount (postBlind dealt sb INITIAL_SMALL_BLIND) bb INITIAL_BIG_BLIND,
        deck := (dealHoleCards (resetPlayers cps) deck).2,
        communityCards := [],
        dealerIndex := dealerIdx,
        activePlayerIndex := ((skipBusted
          (postBlind (postBlind dealt sb INITIAL_SMALL_BLIND) bb INITIAL_BIG_BLIND) 9
          ((bb + 1) % 9) : Nat) : Int),
        currentHighBet := INITIAL_BIG_BLIND,
        phase := GamePhase.PRE_FLOP,
        isGameRunning := true,
        minBet := INITIAL_BIG_BLIND,
        smallBlindIndex := sb,
        bigBlindIndex := bb,
        showdownResults := [],
        message := "New Hand! Pre-Flop." } := by
    rw [startNewHand, if_neg (by simp [hgo])]
    rfl
  rw [hmain]
  dsimp only
  rw [hA, hB, hs3C, hs3T]
  constructor
  · ring
  · omega

/-! ### C1: money conservation -/

/-- C1: starting from a state produced by per-hand setup (blinds posted), and
for every sequence of applied player actions before showdown payout, the pot
equals the sum of all `totalHandBet` fields, and the sum of chips plus hand
totals equals the sum of chips at hand start. -/
theorem money_conservation (prev : GameState) (currentPlayers : List Player)
    (dealerIdx : Nat) (freshDeck : List Card) (acts : List ActRec)
    (h9 : currentPlayers.length = TOTAL_PLAYERS)
    (hgo : setupGameOver (resetPlayers currentPlayers) = false) :
    (applyActions (startNewHand prev currentPlayers dealerIdx freshDeck) acts).pot =
      sumBy (·.totalHandBet)
        (applyActions (startNewHand prev currentPlayers dealerIdx freshDeck) acts).players ∧
    sumBy (·.chips)
        (applyActions (startNewHand prev currentPlayers dealerIdx freshDeck) acts).players +
      sumBy (·.totalHandBet)
        (applyActions (startNewHand prev currentPlayers dealerIdx freshDeck) acts).players =
      sumBy (·.chips) currentPlayers := by
  have h0 := startNewHand_sums prev currentPlayers dealerIdx freshDeck h9 hgo
  suffices hgen : ∀ (bs : List ActRec) (st : GameState),
      st.pot = sumBy (·.totalHandBet) st.players →
      sumBy (·.chips) st.players + sumBy (·.totalHandBet) st.players =
        sumBy (·.chips) currentPlayers →
      (applyActions st bs).pot = sumBy (·.totalHandBet) (applyActions st bs).players ∧
      sumBy (·.chips) (applyActions st bs).players +
        sumBy (·.totalHandBet) (applyActions st bs).players =
        sumBy (·.chips) currentPlayers by
    exact hgen acts _ h0.1 h0.2
  intro bs
  induction bs with
  | nil =>
    intro st hh1 hh2
    exact ⟨hh1, hh2⟩
  | cons a t ih =>
    intro st hh1 hh2
    have hstep := exec_invariant st a.1 a.2.1 a.2.2
      (sumBy (·.chips) currentPlayers) hh1 hh2
    exact ih _ hstep.1 hstep.2

/-- C1 witness: a nine-player 1000-chip table, dealer at seat 0, the unshuffled
deck, and a call / raise / fold / all-in action sequence. -/
theorem money_conservation_witness :
    (applyActions (startNewHand probeState handProbePlayers 0 createDeck)
        handProbeActs).pot =
      sumBy (·.totalHandBet)
        (applyActions (startNewHand probeState handProbePlayers 0 createDeck)
          handProbeActs).players ∧
    sumBy (·.chips)
        (applyActions (startNewHand probeState handProbePlayers 0 createDeck)
          handProbeActs).players +
      sumBy (·.totalHandBet)
        (applyActions (startNewHand probeState handProbePlayers 0 createDeck)
          handProbeActs).players =
      sumBy (·.chips) handProbePlayers :=
  money_conservation probeState handProbePlayers 0 createDeck handProbeActs
    (by decide) (by decide)

/-! ### C8: pre-flop first-to-act -/

theorem bustedAt_postBlind (ps : List Player) (i : Nat) (blind : Int) (t : Nat)
    (h : bustedAt ps t = false) : bustedAt (postBlind ps i blind) t = false := by
  cases hp : ps.get? i with
  | none =>
    simp only [postBlind, hp]
    exact h
  | some p =>
    rw [postBlind_eq_set ps i blind p hp]
    by_cases hti : i = t
    · subst hti
      have hpb : ¬ (p.status = PlayerStatus.BUSTED) := by
        simp only [bustedAt, hp] at h
        simpa using h
      simp only [bustedAt, get?_set_same _ hp, Option.map_some']
      split_ifs with hc
      · simp
      · simpa using hpb
    · simp only [bustedAt, get?_set_other _ _ hti]
      simp only [bustedAt] at h
      exact h

/-- C8 (counterexample): with the user holding exactly the small blind and the
dealer at seat 8, the blind exhausts the user (ALL_IN), yet the first-to-act
search — which skips only BUSTED seats — sets `activePlayerIndex` to that
ALL_IN seat. The claim says the first to act is always an ACTIVE seat. -/
theorem first_to_act_can_be_all_in :
    (startNewHand probeState blindProbePlayers 8 createDeck).activePlayerIndex = 0 ∧
    ((startNewHand probeState blindProbePlayers 8 createDeck).players.get? 0).map (·.status) =
      some PlayerStatus.ALL_IN ∧
    (startNewHand probeState blindProbePlayers 8 createDeck).isGameRunning = true := by decide

set_option maxHeartbeats 1000000 in
/-- C8 (amended): after blinds are posted, `activePlayerIndex` is the first
seat after the big blind whose status is not BUSTED — which may be a seat
whose blind posting left it ALL_IN, not necessarily an ACTIVE seat. -/
theorem first_to_act (prev : GameState) (cps : List Player) (dealerIdx : Nat)
    (deck : List Card) (h9 : cps.length = TOTAL_PLAYERS)
    (hgo : setupGameOver (resetPlayers cps) = false) :
    ∃ k, k < 9 ∧
      (startNewHand prev cps dealerIdx deck).activePlayerIndex =
        (((((startNewHand prev cps dealerIdx deck).bigBlindIndex + 1) % 9 + k) % 9 : Nat) :
          Int) ∧
      bustedAt (startNewHand prev cps dealerIdx deck).players
        ((((startNewHand prev cps dealerIdx deck).bigBlindIndex + 1) % 9 + k) % 9) = false ∧
      ∀ m, m < k →
        bustedAt (startNewHand prev cps dealerIdx deck).players
          ((((startNewHand prev cps dealerIdx deck).bigBlindIndex + 1) % 9 + m) % 9) =
          true := by
  obtain ⟨iu, ib, hiu9, hib9, hne, hbu, hbb0⟩ := setup_live_indices cps h9 hgo
  have hbu' : bustedAt (dealHoleCards (resetPlayers cps) deck).1 iu = false := by
    rw [bustedAt_deal]; exact hbu
  set dealt := (dealHoleCards (resetPlayers cps) deck).1 with hdealt
  have hd1 : (dealerIdx + 1) % 9 < 9 := Nat.mod_lt _ (by omega)
  obtain ⟨hsb9, hsbNB⟩ := skipBusted_found dealt _ hd1 iu hiu9 hbu'
  set sb := skipBusted dealt 9 ((dealerIdx + 1) % 9) with hsbdef
  have hsb1 : (sb + 1) % 9 < 9 := Nat.mod_lt _ (by omega)
  obtain ⟨hbb9, hbbNB⟩ := skipBusted_found dealt _ hsb1 iu hiu9 hbu'
  set bb := skipBusted dealt 9 ((sb + 1) % 9) with hbbdef
  have hbu3 : bustedAt
      (postBlind (postBlind dealt sb INITIAL_SMALL_BLIND) bb INITIAL_BIG_BLIND) iu = false :=
    bustedAt_postBlind _ bb _ iu (bustedAt_postBlind _ sb _ iu hbu')
  have hmain : startNewHand prev cps dealerIdx deck =
      { players := postBlind (postBlind dealt sb INITIAL_SMALL_BLIND) bb INITIAL_BIG_BLIND,
        pot := blindAmount dealt sb INITIAL_SMALL_BLIND +
          blindAmount (postBlind dealt sb INITIAL_SMALL_BLIND) bb INITIAL_BIG_BLIND,
        deck := (dealHoleCards (resetPlayers cps) deck).2,
        communityCards := [],
        dealerIndex := dealerIdx,
        activePlayerIndex := ((skipBusted
          (postBlind (postBlind dealt sb INITIAL_SMALL_BLIND) bb INITIAL_BIG_BLIND) 9
          ((bb + 1) % 9) : Nat) : Int),
        currentHighBet := INITIAL_BIG_BLIND,
        phase := GamePhase.PRE_FLOP,
        isGameRunning := true,
        minBet := INITIAL_BIG_BLIND,
        smallBlindIndex := sb,
        bigBlindIndex := bb,
        showdownResults := [],
        message := "New Hand! Pre-Flop." } := by
    rw [startNewHand, if_neg (by simp [hgo])]
    rfl
  rw [hmain]
  dsimp only
  have hb1 : (bb + 1) % 9 < 9 := Nat.mod_lt _ (by omega)
  rcases skipBusted_spec
      (postBlind (postBlind dealt sb INITIAL_SMALL_BLIND) bb INITIAL_BIG_BLIND) 9
      ((bb + 1) % 9) hb1 with ⟨k, hk, heq, hnb, hmin⟩ | hall
  · exact ⟨k, by omega, by exact_mod_cast heq, hnb, hmin⟩
  · exfalso
    have hk9 : (iu + 9 - (bb + 1) % 9) % 9 < 9 := Nat.mod_lt _ (by omega)
    have hix : ((bb + 1) % 9 + (iu + 9 - (bb + 1) % 9) % 9) % 9 = iu := by omega
    have hc := hall ((iu + 9 - (bb + 1) % 9) % 9) hk9
    rw [hix, hbu3] at hc
    exact Bool.false_ne_true hc

/-- C8 witness: the amended first-to-act theorem applied to the nine-player
1000-chip table with dealer at seat 0. -/
theorem first_to_act_witness :
    ∃ k, k < 9 ∧
      (startNewHand probeState handProbePlayers 0 createDeck).activePlayerIndex =
        (((((startNewHand probeState handProbePlayers 0 createDeck).bigBlindIndex + 1) % 9 +
          k) % 9 : Nat) : Int) ∧
      bustedAt (startNewHand probeState handProbePlayers 0 createDeck).players
        ((((startNewHand probeState handProbePlayers 0 createDeck).bigBlindIndex + 1) % 9 +
          k) % 9) = false ∧
      ∀ m, m < k →
        bustedAt (startNewHand probeState handProbePlayers 0 createDeck).players
          ((((startNewHand probeState handProbePlayers 0 createDeck).bigBlindIndex + 1) % 9 +
            m) % 9) = true :=
  first_to_act probeState handProbePlayers 0 createDeck (by decide) (by decide)

/-! ### C7: auto-run-out to showdown -/

theorem findActiveNat_none (ps : List Player)
    (hact : ∀ p ∈ ps, p.status ≠ PlayerStatus.ACTIVE) :
    ∀ fuel idx, findActiveNat ps fuel idx = none := by
  intro fuel
  induction fuel with
  | zero => intro idx; rfl
  | succ fuel ih =>
    intro idx
    cases hp : ps.get? idx with
    | none =>
      have hp2 : ps[idx]? = none := by rw [← List.get?_eq_getElem?]; exact hp
      simp [findActiveNat, hp, hp2, ih]
    | some p =>
      have hp2 : ps[idx]? = some p := by rw [← List.get?_eq_getElem?]; exact hp
      have := hact p (List.get?_mem hp)
      simp [findActiveNat, hp, hp2, this, ih]

theorem skipToLive_spec (ps : List Player) (h9 : ps.length = 9)
    (hnotall : ¬ ((ps.filter (fun q => decide (q.status ≠ PlayerStatus.BUSTED))).length = 0)) :
    ∀ fuel idx, idx < 9 →
      (∃ p, ps.get? (skipToLive ps fuel idx) = some p ∧
        (p.status = PlayerStatus.ACTIVE ∨ p.status = PlayerStatus.ALL_IN)) ∨
      (∀ k, k < fuel → ¬ ∃ p, ps.get? ((idx + k) % 9) = some p ∧
        (p.status = PlayerStatus.ACTIVE ∨ p.status = PlayerStatus.ALL_IN)) := by
  intro fuel
  induction fuel with
  | zero =>
    intro idx _
    right
    intro k hk
    exact absurd hk (Nat.not_lt_zero k)
  | succ fuel ih =>
    intro idx hidx
    have hid9 : (idx + 0) % 9 = idx := by omega
    have hnotall2 : ¬ ∀ a ∈ ps, a.status = PlayerStatus.BUSTED := by
      intro hAll
      apply hnotall
      rw [List.length_eq_zero, List.filter_eq_nil_iff]
      intro a ha
      simp [hAll a ha]
    cases hps : ps.get? idx with
    | none =>
      exfalso
      have := List.get?_eq_none.mp hps
      omega
    | some p =>
      have hps2 : ps[idx]? = some p := by rw [← List.get?_eq_getElem?]; exact hps
      by_cases hlive : p.status = PlayerStatus.ACTIVE ∨ p.status = PlayerStatus.ALL_IN
      · left
        have hstop : skipToLive ps (fuel + 1) idx = idx := by
          simp [skipToLive, hps, hps2, hlive]
        rw [hstop]
        exact ⟨p, hps, hlive⟩
      · have hrec : skipToLive ps (fuel + 1) idx = skipToLive ps fuel ((idx + 1) % 9) := by
          simp [skipToLive, hps, hps2, hlive, hnotall2, TOTAL_PLAYERS]
        have hlt : (idx + 1) % 9 < 9 := Nat.mod_lt _ (by omega)
        rcases ih ((idx + 1) % 9) hlt with hfound | hnone
        · left
          rw [hrec]
          exact hfound
        · right
          intro k hk
          cases k with
          | zero =>
            rw [hid9]
            intro ⟨q, hq, hqlive⟩
            rw [hps] at hq
            cases hq
            exact hlive hqlive
          | succ k2 =>
            have hix : ((idx + 1) % 9 + k2) % 9 = (idx + (k2 + 1)) % 9 := by omega
            rw [← hix]
            exact hnone k2 (by omega)

/-- When no player is ACTIVE (but someone is all-in), one call of the phase
logic deals the next street and immediately re-enters itself: the result is
the recursive call on the advanced state. -/
theorem nextPhaseGo_step (fuel : Nat) (st : GameState)
    (h9 : st.players.length = 9)
    (hact : ∀ p ∈ st.players, p.status ≠ PlayerStatus.ACTIVE)
    (hallin : ∃ p ∈ st.players, p.status = PlayerStatus.ALL_IN)
    (hn1 : ¬ st.phase = GamePhase.RIVER) :
    nextPhaseGo (fuel + 1) st = nextPhaseGo fuel
      { st with
        players := st.players.map (fun p => { p with currentBet := 0, lastAction := none }),
        currentHighBet := 0,
        phase := (dealPhase st.phase st.communityCards st.deck).1,
        communityCards := (dealPhase st.phase st.communityCards st.deck).2.1,
        deck := (dealPhase st.phase st.communityCards st.deck).2.2,
        message :=
          "Dealing " ++ (dealPhase st.phase st.communityCards st.deck).1.label ++ "..." } := by
  obtain ⟨p0, hp0mem, hp0⟩ := hallin
  have hupd9 : (st.players.map
      (fun p => { p with currentBet := 0, lastAction := none })).length = 9 := by
    simp [h9]
  have hactU : ∀ p ∈ st.players.map
      (fun p => { p with currentBet := 0, lastAction := none }),
      p.status ≠ PlayerStatus.ACTIVE := by
    intro p hp
    rcases List.mem_map.mp hp with ⟨q, hq, rfl⟩
    simpa using hact q hq
  have hallU : ({ p0 with currentBet := 0, lastAction := none } : Player) ∈
      st.players.map (fun p => { p with currentBet := 0, lastAction := none }) :=
    List.mem_map_of_mem _ hp0mem
  have hnotall : ¬ (((st.players.map
      (fun p => { p with currentBet := 0, lastAction := none })).filter
      (fun q => decide (q.status ≠ PlayerStatus.BUSTED))).length = 0) := by
    intro hzero
    have hmem : ({ p0 with currentBet := 0, lastAction := none } : Player) ∈
        (st.players.map (fun p => { p with currentBet := 0, lastAction := none })).filter
          (fun q => decide (q.status ≠ PlayerStatus.BUSTED)) := by
      refine List.mem_filter.mpr ⟨hallU, ?_⟩
      simp [hp0]
    rw [List.length_eq_zero] at hzero
    rw [hzero] at hmem
    simp at hmem
  have hd1 : (st.dealerIndex + 1) % 9 < 9 := Nat.mod_lt _ (by omega)
  rcases skipToLive_spec _ hupd9 hnotall 9 _ hd1 with ⟨q0, hq0, hq0live⟩ | hnone
  · have hq0A : q0.status = PlayerStatus.ALL_IN := by
      rcases hq0live with h | h
      · exact absurd h (hactU q0 (List.get?_mem hq0))
      · exact h
    have hcond : (some q0).any (fun p => decide (p.status = PlayerStatus.ALL_IN)) = true := by
      simp [hq0A]
    simp only [nextPhaseGo, TOTAL_PLAYERS]
    rw [if_neg hn1, hq0, if_pos hcond, findActiveNat_none _ hactU 9 _]
  · exfalso
    obtain ⟨j, hj⟩ := List.get?_of_mem hallU
    have hj9 : j < 9 := by
      have := get?_some_lt hj
      omega
    have hk9 : (j + 9 - (st.dealerIndex + 1) % 9) % 9 < 9 := Nat.mod_lt _ (by omega)
    have hix : ((st.dealerIndex + 1) % 9 + (j + 9 - (st.dealerIndex + 1) % 9) % 9) % 9 = j := by
      omega
    refine hnone _ hk9 ?_
    rw [hix]
    exact ⟨_, hj, Or.inr (by simpa using hp0)⟩

theorem getLast?_toList_length (l : List Card) (h : l ≠ []) :
    l.getLast?.toList.length = 1 := by
  obtain ⟨a, ha⟩ := Option.isSome_iff_exists.mp (List.getLast?_isSome.mpr h)
  rw [ha]
  rfl

theorem dropLast_ne_nil (l : List Card) (h : 2 ≤ l.length) : l.dropLast ≠ [] := by
  intro hnil
  have hlen := congrArg List.length hnil
  rw [List.length_dropLast] at hlen
  simp at hlen
  omega

theorem dealPhase_PRE_phase (comm deck : List Card) :
    (dealPhase GamePhase.PRE_FLOP comm deck).1 = GamePhase.FLOP := rfl

theorem dealPhase_FLOP_phase (comm deck : List Card) :
    (dealPhase GamePhase.FLOP comm deck).1 = GamePhase.TURN := rfl

theorem dealPhase_TURN_phase (comm deck : List Card) :
    (dealPhase GamePhase.TURN comm deck).1 = GamePhase.RIVER := rfl

theorem dealPhase_PRE_comm (comm deck : List Card) (h : 3 ≤ deck.length) :
    (dealPhase GamePhase.PRE_FLOP comm deck).2.1.length = comm.length + 3 := by
  have h1 : deck ≠ [] := by
    intro hh
    rw [hh] at h
    simp at h
  have h2 : deck.dropLast ≠ [] := dropLast_ne_nil _ (by omega)
  have h3 : deck.dropLast.dropLast ≠ [] :=
    dropLast_ne_nil _ (by simp only [List.length_dropLast]; omega)
  simp only [dealPhase, popCard, List.length_append,
    getLast?_toList_length _ h1, getLast?_toList_length _ h2, getLast?_toList_length _ h3]

theorem dealPhase_PRE_deck (comm deck : List Card) :
    (dealPhase GamePhase.PRE_FLOP comm deck).2.2.length = deck.length - 3 := by
  simp only [dealPhase, popCard, List.length_dropLast]
  omega

theorem dealPhase_FLOP_comm (comm deck : List Card) (h : 1 ≤ deck.length) :
    (dealPhase GamePhase.FLOP comm deck).2.1.length = comm.length + 1 := by
  have h1 : deck ≠ [] := by
    intro hh
    rw [hh] at h
    simp at h
  simp only [dealPhase, popCard, List.length_append, getLast?_toList_length _ h1]

theorem dealPhase_FLOP_deck (comm deck : List Card) :
    (dealPhase GamePhase.FLOP comm deck).2.2.length = deck.length - 1 := by
  simp only [dealPhase, popCard, List.length_dropLast]

theorem dealPhase_TURN_comm (comm deck : List Card) (h : 1 ≤ deck.length) :
    (dealPhase GamePhase.TURN comm deck).2.1.length = comm.length + 1 := by
  have h1 : deck ≠ [] := by
    intro hh
    rw [hh] at h
    simp at h
  simp only [dealPhase, popCard, List.length_append, getLast?_toList_length _ h1]

theorem dealPhase_TURN_deck (comm deck : List Card) :
    (dealPhase GamePhase.TURN comm deck).2.2.length = deck.length - 1 := by
  simp only [dealPhase, popCard, List.length_dropLast]

/-- `resolveWinner` always moves to the SHOWDOWN phase, leaves the community
cards untouched and clears the active seat to `-1`. -/
theorem resolveWinner_fields (st : GameState) (cps : List Player) :
    (resolveWinner st cps).phase = GamePhase.SHOWDOWN ∧
    (resolveWinner st cps).communityCards = st.communityCards ∧
    (resolveWinner st cps).activePlayerIndex = -1 :=
  ⟨rfl, rfl, rfl⟩

/-- On the river, one call of the phase logic resolves the hand. -/
theorem nextPhaseGo_river (fuel : Nat) (st : GameState) (h : st.phase = GamePhase.RIVER) :
    nextPhaseGo (fuel + 1) st = resolveWinner st
      (st.players.map (fun p => { p with currentBet := 0, lastAction := none })) := by
  simp only [nextPhaseGo]
  rw [if_pos h]

/-- The all-in run-out: with no ACTIVE player left, someone all-in, and a
consistent board, enough fuel drives the phase logic all the way to the
showdown with a full five-card board and no seat to act. -/
theorem nextPhase_runout_aux :
    ∀ (fuel : Nat) (st : GameState),
      st.players.length = 9 →
      (∀ p ∈ st.players, p.status ≠ PlayerStatus.ACTIVE) →
      (∃ p ∈ st.players, p.status = PlayerStatus.ALL_IN) →
      (st.phase = GamePhase.PRE_FLOP ∨ st.phase = GamePhase.FLOP ∨
        st.phase = GamePhase.TURN ∨ st.phase = GamePhase.RIVER) →
      st.communityCards.length = commLenFor st.phase →
      5 ≤ st.communityCards.length + st.deck.length →
      phaseDist st.phase < fuel →
      (nextPhaseGo fuel st).phase = GamePhase.SHOWDOWN ∧
        (nextPhaseGo fuel st).communityCards.length = 5 ∧
        (nextPhaseGo fuel st).activePlayerIndex = -1 := by
  intro fuel
  induction fuel with
  | zero =>
    intro st _ _ _ _ _ _ hlt
    omega
  | succ fuel ih =>
    intro st h9 hact hallin hph hcomm hdeck hlt
    by_cases hriv : st.phase = GamePhase.RIVER
    · rw [nextPhaseGo_river fuel st hriv]
      have hc5 : st.communityCards.length = 5 := by
        rw [hcomm, hriv]
        decide
      exact ⟨rfl, hc5, rfl⟩
    · rcases hph with h | h | h | h
      · have hc0 : st.communityCards.length = 0 := by rw [hcomm, h]; decide
        have hd3 : 3 ≤ st.deck.length := by omega
        rw [nextPhaseGo_step fuel st h9 hact hallin hriv]
        refine ih _ (by simpa using h9) ?_ ?_ ?_ ?_ ?_ ?_
        · intro p hp
          rcases List.mem_map.mp hp with ⟨q, hq, rfl⟩
          simpa using hact q hq
        · obtain ⟨p0, hp0mem, hp0⟩ := hallin
          exact ⟨_, List.mem_map_of_mem _ hp0mem, hp0⟩
        · right
          left
          dsimp only
          rw [h]
          exact dealPhase_PRE_phase _ _
        · dsimp only
          rw [h, dealPhase_PRE_phase, dealPhase_PRE_comm _ _ hd3, hc0]
          decide
        · dsimp only
          rw [h, dealPhase_PRE_comm _ _ hd3, dealPhase_PRE_deck]
          omega
        · dsimp only
          rw [h, dealPhase_PRE_phase]
          have h2 : phaseDist GamePhase.FLOP = 2 := rfl
          have h3 : phaseDist st.phase = 3 := by rw [h]; decide
          omega
      · have hc3 : st.communityCards.length = 3 := by rw [hcomm, h]; decide
        have hd1 : 1 ≤ st.deck.length := by omega
        rw [nextPhaseGo_step fuel st h9 hact hallin hriv]
        refine ih _ (by simpa using h9) ?_ ?_ ?_ ?_ ?_ ?_
        · intro p hp
          rcases List.mem_map.mp hp with ⟨q, hq, rfl⟩
          simpa using hact q hq
        · obtain ⟨p0, hp0mem, hp0⟩ := hallin
          exact ⟨_, List.mem_map_of_mem _ hp0mem, hp0⟩
        · right
          right
          left
          dsimp only
          rw [h]
          exact dealPhase_FLOP_phase _ _
        · dsimp only
          rw [h, dealPhase_FLOP_phase, dealPhase_FLOP_comm _ _ hd1, hc3]
          decide
        · dsimp only
          rw [h, dealPhase_FLOP_comm _ _ hd1, dealPhase_FLOP_deck]
          omega
        · dsimp only
          rw [h, dealPhase_FLOP_phase]
          have h2 : phaseDist GamePhase.TURN = 1 := rfl
          have h3 : phaseDist st.phase = 2 := by rw [h]; decide
          omega
      · have hc4 : st.communityCards.length = 4 := by rw [hcomm, h]; decide
        have hd1 : 1 ≤ st.deck.length := by omega
        rw [nextPhaseGo_step fuel st h9 hact hallin hriv]
        refine ih _ (by simpa using h9) ?_ ?_ ?_ ?_ ?_ ?_
        · intro p hp
          rcases List.mem_map.mp hp with ⟨q, hq, rfl⟩
          simpa using hact q hq
        · obtain ⟨p0, hp0mem, hp0⟩ := hallin
          exact ⟨_, List.mem_map_of_mem _ hp0mem, hp0⟩
        · right
          right
          right
          dsimp only
          rw [h]
          exact dealPhase_TURN_phase _ _
        · dsimp only
          rw [h, dealPhase_TURN_phase, dealPhase_TURN_comm _ _ hd1, hc4]
          decide
        · dsimp only
          rw [h, dealPhase_TURN_comm _ _ hd1, dealPhase_TURN_deck]
          omega
        · dsimp only
          rw [h, dealPhase_TURN_phase]
          have h2 : phaseDist GamePhase.RIVER = 0 := rfl
          have h3 : phaseDist st.phase = 1 := by rw [h]; decide
          omega
      · exact absurd h hriv

/-- C7 (counterexample): the spec triggers the auto-run-out whenever fewer
than 2 players retain ACTIVE status, but with exactly one ACTIVE player left
`nextPhase` does not skip to the showdown: from the flop it deals only the
turn and hands the betting turn to the remaining ACTIVE seat. -/
theorem runout_single_active_still_bets :
    (runoutProbePlayers.filter (fun p => decide (p.status = PlayerStatus.ACTIVE))).length = 1 ∧
    (nextPhase runoutProbeState).phase = GamePhase.TURN ∧
    ¬ (nextPhase runoutProbeState).phase = GamePhase.SHOWDOWN ∧
    (nextPhase runoutProbeState).activePlayerIndex = 1 := by
  decide

/-- C7 (amended): the auto-run-out happens exactly when NO player retains
ACTIVE status (everyone surviving is all-in): from any betting phase with a
consistent board and enough cards, `nextPhase` deals all remaining community
cards and reaches the showdown with a full five-card board and no seat to
act. -/
theorem auto_runout (st : GameState)
    (h9 : st.players.length = 9)
    (hact : ∀ p ∈ st.players, p.status ≠ PlayerStatus.ACTIVE)
    (hallin : ∃ p ∈ st.players, p.status = PlayerStatus.ALL_IN)
    (hph : st.phase = GamePhase.PRE_FLOP ∨ st.phase = GamePhase.FLOP ∨
      st.phase = GamePhase.TURN ∨ st.phase = GamePhase.RIVER)
    (hcomm : st.communityCards.length = commLenFor st.phase)
    (hdeck : 5 ≤ st.communityCards.length + st.deck.length) :
    (nextPhase st).phase = GamePhase.SHOWDOWN ∧
      (nextPhase st).communityCards.length = 5 ∧
      (nextPhase st).activePlayerIndex = -1 := by
  have hlt : phaseDist st.phase < 5 := by
    rcases hph with h | h | h | h <;> rw [h] <;> decide
  exact nextPhase_runout_aux 5 st h9 hact hallin hph hcomm hdeck hlt

/-- C7 witness: the amended run-out theorem applied to a concrete flop state
where both surviving players are all-in. -/
theorem auto_runout_witness :
    (nextPhase allinProbeState).phase = GamePhase.SHOWDOWN ∧
      (nextPhase allinProbeState).communityCards.length = 5 ∧
      (nextPhase allinProbeState).activePlayerIndex = -1 :=
  auto_runout allinProbeState (by decide) (by decide) (by decide)
    (by decide) (by decide) (by decide)

/-! ### Evaluator category bands (C4) -/

theorem mem_firstDedupAux {α} [DecidableEq α] {a : α} :
    ∀ (seen l : List α), a ∈ firstDedupAux seen l → a ∈ l := by
  intro seen l
  induction l generalizing seen with
  | nil =>
    intro h
    simp [firstDedupAux] at h
  | cons b t ih =>
    intro h
    rw [firstDedupAux] at h
    by_cases hb : b ∈ seen
    · rw [if_pos hb] at h
      exact List.mem_cons_of_mem _ (ih _ h)
    · rw [if_neg hb] at h
      rcases List.mem_cons.mp h with rfl | h2
      · exact List.mem_cons_self _ _
      · exact List.mem_cons_of_mem _ (ih _ h2)

theorem mem_firstDedup {α} [DecidableEq α] {a : α} {l : List α}
    (h : a ∈ firstDedup l) : a ∈ l :=
  mem_firstDedupAux _ _ h

theorem mem_sortDescNat {a : Nat} {l : List Nat} : a ∈ sortDescNat l ↔ a ∈ l :=
  (List.perm_insertionSort _ l).mem_iff

theorem mem_sortAscNat {a : Nat} {l : List Nat} : a ∈ sortAscNat l ↔ a ∈ l :=
  (List.perm_insertionSort _ l).mem_iff

theorem mem_sortCardsDesc {c : Card} {l : List Card} : c ∈ sortCardsDesc l ↔ c ∈ l :=
  (List.perm_insertionSort _ l).mem_iff

theorem scanStraightRuns_mem : ∀ {l : List Nat} {r : Nat}, scanStraightRuns l = some r → r ∈ l := by
  intro l
  induction l with
  | nil =>
    intro r h
    simp [scanStraightRuns] at h
  | cons a t ih =>
    intro r h
    rw [scanStraightRuns] at h
    split at h
    · split at h
      · cases h
        exact List.mem_cons_self _ _
      · exact List.mem_cons_of_mem _ (ih h)
    · cases h

theorem getStraightHighRank_bound {l : List Nat} (hv : ∀ r ∈ l, 2 ≤ r ∧ r ≤ 14)
    (h0 : getStraightHighRank l ≠ 0) :
    2 ≤ getStraightHighRank l ∧ getStraightHighRank l ≤ 14 := by
  simp only [getStraightHighRank] at h0 ⊢
  by_cases hlen : (sortDescNat (firstDedup l)).length < 5
  · rw [if_pos hlen] at h0
    exact absurd rfl h0
  · rw [if_neg hlen] at h0 ⊢
    rcases hscan : scanStraightRuns (sortDescNat (firstDedup l)) with _ | r
    · rw [hscan] at h0
      dsimp only at h0 ⊢
      by_cases hw : 14 ∈ sortDescNat (firstDedup l) ∧ 2 ∈ sortDescNat (firstDedup l) ∧
          3 ∈ sortDescNat (firstDedup l) ∧ 4 ∈ sortDescNat (firstDedup l) ∧
          5 ∈ sortDescNat (firstDedup l)
      · rw [if_pos hw]
        omega
      · rw [if_neg hw] at h0
        exact absurd rfl h0
    · rw [hscan] at h0
      dsimp only at h0 ⊢
      exact hv r (mem_firstDedup (mem_sortDescNat.mp (scanStraightRuns_mem hscan)))

theorem evaluateHand_score_band (hole comm : List Card)
    (hv : ∀ c ∈ hole ++ comm, 2 ≤ c.rank ∧ c.rank ≤ 14)
    (hne : hole ++ comm ≠ []) :
    100 * handCategory hole comm + 2 ≤ (evaluateHand hole comm).score ∧
      (evaluateHand hole comm).score ≤ 100 * handCategory hole comm + 14 := by
  have hvA : ∀ c ∈ sortCardsDesc (hole ++ comm), 2 ≤ c.rank ∧ c.rank ≤ 14 := fun c hc =>
    hv c (mem_sortCardsDesc.mp hc)
  have hneA : sortCardsDesc (hole ++ comm) ≠ [] := by
    intro h0
    have hlen : (sortCardsDesc (hole ++ comm)).length = (hole ++ comm).length :=
      (List.perm_insertionSort _ _).length_eq
    rw [h0] at hlen
    exact hne (List.length_eq_zero.mp hlen.symm)
  have hvR : ∀ r ∈ (sortCardsDesc (hole ++ comm)).map (fun c => c.rank), 2 ≤ r ∧ r ≤ 14 := by
    intro r hr
    rcases List.mem_map.mp hr with ⟨c, hc, rfl⟩
    exact hvA c hc
  simp only [evaluateHand, handCategory]
  split
  next hsf =>
    split at hsf
    next s heq =>
      dsimp only at hsf ⊢
      have hvF : ∀ r ∈ List.map (fun x => x.rank)
          (List.filter (fun c => decide (c.suit = s)) (sortCardsDesc (hole ++ comm))),
          2 ≤ r ∧ r ≤ 14 := by
        intro r hr
        rcases List.mem_map.mp hr with ⟨c, hc, rfl⟩
        exact hvA c (List.mem_filter.mp hc).1
      have hb := getStraightHighRank_bound hvF hsf
      omega
    next heq =>
      exact absurd rfl hsf
  next hsf =>
    split
    next quadRank heq =>
      try dsimp only
      have hmem := List.mem_of_find?_eq_some heq
      have hb := hvR quadRank (mem_firstDedup (mem_sortAscNat.mp hmem))
      omega
    next heq =>
      split
      next ht hp heq2 =>
        try dsimp only
        split at heq2
        next heqT =>
          cases heq2
        next highTrip rest heqT =>
          split at heq2
          next heqS =>
            cases heq2
          next highPair rest2 heqS =>
            simp only [Option.some.injEq, Prod.mk.injEq] at heq2
            obtain ⟨h1, h2⟩ := heq2
            have hmemT : highTrip ∈ (sortDescNat (firstDedup (List.map (fun c => c.rank)
                (sortCardsDesc (hole ++ comm))))).filter
                (fun r => decide (countRank (sortCardsDesc (hole ++ comm)) r = 3)) := by
              rw [heqT]
              exact List.mem_cons_self _ _
            have hb := hvR highTrip
              (mem_firstDedup (mem_sortDescNat.mp (List.mem_filter.mp hmemT).1))
            omega
      next heq2 =>
        split
        next s heq3 =>
          try dsimp only
          have hs5 : s ∈ (firstDedup (List.map (fun x => x.suit)
              (sortCardsDesc (hole ++ comm)))).filter
              (fun t => decide (countSuit (sortCardsDesc (hole ++ comm)) t ≥ 5)) :=
            List.mem_of_getLast?_eq_some heq3
          have hc5 : 5 ≤ (List.filter (fun c => decide (c.suit = s))
              (sortCardsDesc (hole ++ comm))).length := by
            have h2 := (List.mem_filter.mp hs5).2
            simp only [decide_eq_true_eq, ge_iff_le, countSuit] at h2
            exact h2
          rcases hfc : List.filter (fun c => decide (c.suit = s))
              (sortCardsDesc (hole ++ comm)) with _ | ⟨c0, t0⟩
          · rw [hfc] at hc5
            simp at hc5
          · dsimp only
            have hc0A : c0 ∈ sortCardsDesc (hole ++ comm) := by
              have hm : c0 ∈ List.filter (fun c => decide (c.suit = s))
                  (sortCardsDesc (hole ++ comm)) := by
                rw [hfc]
                exact List.mem_cons_self _ _
              exact (List.mem_filter.mp hm).1
            have hb := hvA c0 hc0A
            omega
        next heq3 =>
          split
          next hst =>
            try dsimp only
            have hb := getStraightHighRank_bound hvR hst
            omega
          next hst =>
            split
            next tripRank rest heqT =>
              try dsimp only
              have hmemT : tripRank ∈ (sortDescNat (firstDedup (List.map (fun c => c.rank)
                  (sortCardsDesc (hole ++ comm))))).filter
                  (fun r => decide (countRank (sortCardsDesc (hole ++ comm)) r = 3)) := by
                rw [heqT]
                exact List.mem_cons_self _ _
              have hb := hvR tripRank
                (mem_firstDedup (mem_sortDescNat.mp (List.mem_filter.mp hmemT).1))
              omega
            next heqT =>
              split
              next p1 p2 rest heqP =>
                try dsimp only
                have hmemP : p1 ∈ (sortDescNat (firstDedup (List.map (fun c => c.rank)
                    (sortCardsDesc (hole ++ comm))))).filter
                    (fun r => decide (countRank (sortCardsDesc (hole ++ comm)) r = 2)) := by
                  rw [heqP]
                  exact List.mem_cons_self _ _
                have hb := hvR p1
                  (mem_firstDedup (mem_sortDescNat.mp (List.mem_filter.mp hmemP).1))
                omega
              next p1 heqP =>
                try dsimp only
                have hmemP : p1 ∈ (sortDescNat (firstDedup (List.map (fun c => c.rank)
                    (sortCardsDesc (hole ++ comm))))).filter
                    (fun r => decide (countRank (sortCardsDesc (hole ++ comm)) r = 2)) := by
                  rw [heqP]
                  exact List.mem_cons_self _ _
                have hb := hvR p1
                  (mem_firstDedup (mem_sortDescNat.mp (List.mem_filter.mp hmemP).1))
                omega
              next heqP =>
                try dsimp only
                rcases hr : List.map (fun c => c.rank) (sortCardsDesc (hole ++ comm))
                  with _ | ⟨r0, t0⟩
                · exact absurd (List.map_eq_nil_iff.mp hr) hneA
                · dsimp only
                  have hb := hvR r0 (by rw [hr]; exact List.mem_cons_self _ _)
                  omega

/-- C4: evaluator category monotonicity: whenever the classification cascade
puts the first input in a strictly higher category band than the second
(straight flush above quads above full house above flush above straight above
trips above two pair above pair above high card), the first evaluated score is
strictly greater, because each category occupies the fixed disjoint band
100 * category + primary rank with the primary rank in 2..14. -/
theorem evaluator_category_monotonicity (holeA commA holeB commB : List Card)
    (hvA2 : ∀ c ∈ holeA ++ commA, 2 ≤ c.rank ∧ c.rank ≤ 14)
    (hneA2 : holeA ++ commA ≠ [])
    (hvB2 : ∀ c ∈ holeB ++ commB, 2 ≤ c.rank ∧ c.rank ≤ 14)
    (hneB2 : holeB ++ commB ≠ [])
    (hcat : handCategory holeB commB < handCategory holeA commA) :
    (evaluateHand holeB commB).score < (evaluateHand holeA commA).score := by
  obtain ⟨lA, uA⟩ := evaluateHand_score_band holeA commA hvA2 hneA2
  obtain ⟨lB, uB⟩ := evaluateHand_score_band holeB commB hvB2 hneB2
  omega

/-- C4 witness: four sevens (category 7) against a full house of twos over
nines (category 6): the quads hand scores strictly higher. -/
theorem evaluator_category_monotonicity_witness :
    handCategory [mkCard Suit.SPADES 7, mkCard Suit.HEARTS 7]
        [mkCard Suit.DIAMONDS 7, mkCard Suit.CLUBS 7, mkCard Suit.SPADES 9,
          mkCard Suit.HEARTS 2, mkCard Suit.DIAMONDS 3] = 7 ∧
    handCategory [mkCard Suit.SPADES 2, mkCard Suit.HEARTS 2]
        [mkCard Suit.DIAMONDS 2, mkCard Suit.SPADES 9, mkCard Suit.HEARTS 9,
          mkCard Suit.CLUBS 5, mkCard Suit.DIAMONDS 4] = 6 ∧
    (evaluateHand [mkCard Suit.SPADES 2, mkCard Suit.HEARTS 2]
        [mkCard Suit.DIAMONDS 2, mkCard Suit.SPADES 9, mkCard Suit.HEARTS 9,
          mkCard Suit.CLUBS 5, mkCard Suit.DIAMONDS 4]).score <
      (evaluateHand [mkCard Suit.SPADES 7, mkCard Suit.HEARTS 7]
        [mkCard Suit.DIAMONDS 7, mkCard Suit.CLUBS 7, mkCard Suit.SPADES 9,
          mkCard Suit.HEARTS 2, mkCard Suit.DIAMONDS 3]).score :=
  ⟨by decide, by decide,
    evaluator_category_monotonicity _ _ _ _ (by decide) (by decide) (by decide)
      (by decide) (by decide)⟩

end GPoker
